import Mathlib

/-!
Verification of the core of the WebAssembly-to-IR function-body translator
(files src/lib/wasm/src/state.rs and src/lib/wasm/src/code_translator.rs).

Shallow-embedding conventions:

* IR handles (Ebb, Inst, Value, Heap, SigRef, FuncRef, JumpTable) are opaque
  identifiers minted sequentially by the builder; they are modelled as Nat.
* A Rust Vec used as a stack (the operand stack and the control stack) is
  modelled as a Lean list with the MOST RECENTLY PUSHED element FIRST, so the
  Rust index len - 1 - k (depth k from the top) is the Lean index k.
  Rust Vec::truncate(m), which keeps the bottom m elements, is
  List.drop (len - m); Vec::extend_from_slice(params) prepends params.reverse.
* The IR builder (cton_frontend::FunctionBuilder) is an external collaborator;
  it is modelled as an event log plus fresh-id counters.  Its is_unreachable /
  is_pristine queries are computed from CFG information outside the embedded
  fragment, so they are carried as abstract boolean state that instruction
  insertion and block switching update in the obvious way.
* The environment (FuncEnvironment) is an external collaborator modelled as a
  deterministic oracle; its translate_* emissions are modelled as single
  events producing a fresh result value.  Invocations of its make_* entity
  constructors are recorded in an instrumentation log (env_make_log) so that
  call-count properties can be stated.
* Fallible operations (Vec pops that would underflow, out-of-range indexing,
  unwrap of an empty pop, violated assertions) return Option, none modelling
  the Rust panic.
* Machine integers: u32 / usize values are Nat, i32 / i64 arithmetic is Int
  with explicit wrapping helpers where the source casts.
-/

/-- Semantic value types recognized by the core (cretonne ir::types). -/
inductive Ty where
  | i32
  | i64
  | f32
  | f64
deriving DecidableEq, Repr

/-- How a Wasm global is materialized (environ::GlobalValue). -/
inductive GlobalValue where
  | const (val : Nat)
  | memory (gv : Nat) (ty : Ty)
deriving DecidableEq, Repr

/-- A control stack frame (state.rs, enum ControlStackFrame), with the field
order of the source. -/
inductive ControlStackFrame where
  | If (destination : Nat) (branch_inst : Nat) (num_return_values : Nat)
      (original_stack_size : Nat) (reachable : Bool)
  | Block (destination : Nat) (num_return_values : Nat)
      (original_stack_size : Nat) (reachable : Bool)
  | Loop (destination : Nat) (header : Nat) (num_return_values : Nat)
      (original_stack_size : Nat) (reachable : Bool)
deriving DecidableEq, Repr

/-- ControlStackFrame::num_return_values. -/
def ControlStackFrame.num_return_values : ControlStackFrame → Nat
  | .If _ _ n _ _ => n
  | .Block _ n _ _ => n
  | .Loop _ _ n _ _ => n

/-- ControlStackFrame::following_code: always the destination block. -/
def ControlStackFrame.following_code : ControlStackFrame → Nat
  | .If d _ _ _ _ => d
  | .Block d _ _ _ => d
  | .Loop d _ _ _ _ => d

/-- ControlStackFrame::br_destination: the header for a Loop, the destination
otherwise. -/
def ControlStackFrame.br_destination : ControlStackFrame → Nat
  | .If d _ _ _ _ => d
  | .Block d _ _ _ => d
  | .Loop _ h _ _ _ => h

/-- ControlStackFrame::original_stack_size. -/
def ControlStackFrame.original_stack_size : ControlStackFrame → Nat
  | .If _ _ _ s _ => s
  | .Block _ _ s _ => s
  | .Loop _ _ _ s _ => s

/-- ControlStackFrame::is_loop. -/
def ControlStackFrame.is_loop : ControlStackFrame → Bool
  | .If _ _ _ _ _ => false
  | .Block _ _ _ _ => false
  | .Loop _ _ _ _ _ => true

/-- Whether the frame is an If (used by the End translation, which pattern
matches on the variant in the source). -/
def ControlStackFrame.is_if : ControlStackFrame → Bool
  | .If _ _ _ _ _ => true
  | .Block _ _ _ _ => false
  | .Loop _ _ _ _ _ => false

/-- ControlStackFrame::is_reachable. -/
def ControlStackFrame.is_reachable : ControlStackFrame → Bool
  | .If _ _ _ _ r => r
  | .Block _ _ _ r => r
  | .Loop _ _ _ _ r => r

/-- ControlStackFrame::set_reachable. -/
def ControlStackFrame.set_reachable : ControlStackFrame → ControlStackFrame
  | .If d b n s _ => .If d b n s true
  | .Block d n s _ => .Block d n s true
  | .Loop d h n s _ => .Loop d h n s true

/-- Events recorded by the builder model: emitted instructions, block
switching and sealing, environment delegations. -/
inductive Event where
  | jump (destination : Nat) (args : List Nat)
  | brz (cond : Nat) (destination : Nat) (args : List Nat)
  | brnz (cond : Nat) (destination : Nat) (args : List Nat)
  | br_table (arg : Nat) (table : Nat)
  | trap (code : Nat)
  | return_values (args : List Nat)
  | switch_to (ebb : Nat) (args : List Nat)
  | seal (ebb : Nat)
  | change_jump_dest (inst : Nat) (ebb : Nat)
  | heap_addr (result : Nat) (heap : Nat) (addr : Nat) (check_size : Nat)
  | iadd_imm (result : Nat) (arg : Nat) (imm : Int)
  | env_grow_memory (result : Nat) (index : Nat) (heap : Nat) (arg : Nat)
  | env_current_memory (result : Nat) (index : Nat) (heap : Nat)
deriving DecidableEq, Repr

/-- The IR builder model (external collaborator cton_frontend::FunctionBuilder):
an event log, fresh-id counters, per-ebb parameter lists, created jump tables,
and the two block-status flags queried by the End translation. -/
structure FunctionBuilder where
  next_ebb : Nat
  next_value : Nat
  next_inst : Nat
  ebb_params_tab : List (List Nat)
  jump_tables : List (List Nat)
  events : List Event
  is_unreachable : Bool
  is_pristine : Bool
deriving DecidableEq, Repr

/-- Mint a fresh Ebb (FunctionBuilder::create_ebb). -/
def FunctionBuilder.create_ebb (b : FunctionBuilder) : Nat × FunctionBuilder :=
  (b.next_ebb,
   { b with next_ebb := b.next_ebb + 1, ebb_params_tab := b.ebb_params_tab ++ [[]] })

/-- Mint a fresh Value. -/
def FunctionBuilder.fresh_value (b : FunctionBuilder) : Nat × FunctionBuilder :=
  (b.next_value, { b with next_value := b.next_value + 1 })

/-- Parameters of an ebb (FunctionBuilder::ebb_params). -/
def FunctionBuilder.ebb_params (b : FunctionBuilder) (e : Nat) : List Nat :=
  b.ebb_params_tab.getD e []

/-- Append a typed parameter to an ebb (FunctionBuilder::append_ebb_param).
The parameter is a freshly minted value; the embedding does not track value
types, so the type argument is recorded nowhere. -/
def FunctionBuilder.append_ebb_param (b : FunctionBuilder) (e : Nat) (_ty : Ty) :
    Nat × FunctionBuilder :=
  let v := b.next_value
  (v, { b with
          next_value := b.next_value + 1,
          ebb_params_tab := b.ebb_params_tab.set e (b.ebb_params_tab.getD e [] ++ [v]) })

/-- Record an emitted instruction.  Inserting an instruction makes the current
block non-pristine. -/
def FunctionBuilder.emit (b : FunctionBuilder) (ev : Event) : FunctionBuilder :=
  { b with events := b.events ++ [ev], next_inst := b.next_inst + 1,
           is_pristine := false }

/-- Record an emitted instruction and return its Inst handle (used for the brz
of an If, whose handle is stored in the control frame and later retargeted). -/
def FunctionBuilder.emit_inst (b : FunctionBuilder) (ev : Event) :
    Nat × FunctionBuilder :=
  (b.next_inst, b.emit ev)

/-- FunctionBuilder::switch_to_block.  The freshly current block has no
instructions yet, hence is pristine; whether it is unreachable is recomputed
by the real builder from CFG data outside the embedded fragment, so the model
resets the flag. -/
def FunctionBuilder.switch_to_block (b : FunctionBuilder) (e : Nat)
    (args : List Nat) : FunctionBuilder :=
  { b with events := b.events ++ [.switch_to e args],
           is_pristine := true, is_unreachable := false }

/-- FunctionBuilder::seal_block. -/
def FunctionBuilder.seal_block (b : FunctionBuilder) (e : Nat) : FunctionBuilder :=
  { b with events := b.events ++ [.seal e] }

/-- FunctionBuilder::change_jump_destination; the retargeting of the recorded
instruction is logged as an event. -/
def FunctionBuilder.change_jump_destination (b : FunctionBuilder) (inst : Nat)
    (e : Nat) : FunctionBuilder :=
  { b with events := b.events ++ [.change_jump_dest inst e] }

/-- FunctionBuilder::create_jump_table: registers the entry list and returns
the fresh JumpTable handle. -/
def FunctionBuilder.create_jump_table (b : FunctionBuilder)
    (entries : List Nat) : Nat × FunctionBuilder :=
  (b.jump_tables.length, { b with jump_tables := b.jump_tables ++ [entries] })

/-- Labels for the four entity caches, used to key the instrumentation log of
environment make_* invocations. -/
inductive EntityRef where
  | global (index : Nat)
  | heap (index : Nat)
  | sig (index : Nat)
  | func (index : Nat)
deriving DecidableEq, Repr

/-- The environment (external collaborator environ::FuncEnvironment), a
deterministic oracle.  sig_normal_args models normal_args(func.dfg.signatures
(s)) and ext_func_signature models func.dfg.ext_funcs(f).signature. -/
structure FuncEnvironment where
  make_global : Nat → GlobalValue
  make_heap : Nat → Nat
  make_indirect_sig : Nat → Nat
  make_direct_func : Nat → Nat
  sig_normal_args : Nat → Nat
  ext_func_signature : Nat → Nat
  return_at_end : Bool

/-- First-match association lookup, modelling HashMap lookup on the caches. -/
def assoc_find {α : Type} (i : Nat) : List (Nat × α) → Option α
  | [] => none
  | p :: ps => if p.1 = i then some p.2 else assoc_find i ps

/-- The per-function translation state (state.rs, struct TranslationState).
The stacks are lists with the most recently pushed element first.
env_make_log instruments which environment make_* operations were invoked. -/
structure TranslationState where
  stack : List Nat
  control_stack : List ControlStackFrame
  phantom_unreachable_stack_depth : Nat
  real_unreachable_stack_depth : Nat
  globals : List (Nat × GlobalValue)
  heaps : List (Nat × Nat)
  signatures : List (Nat × (Nat × Nat))
  functions : List (Nat × (Nat × Nat))
  env_make_log : List EntityRef
deriving DecidableEq, Repr

/-- TranslationState::push1. -/
def TranslationState.push1 (s : TranslationState) (v : Nat) : TranslationState :=
  { s with stack := v :: s.stack }

/-- TranslationState::pop1 (Vec::pop().unwrap(); underflow is a panic). -/
def TranslationState.pop1 (s : TranslationState) : Option (Nat × TranslationState) :=
  match s.stack with
  | [] => none
  | v :: rest => some (v, { s with stack := rest })

/-- TranslationState::peek1. -/
def TranslationState.peek1 (s : TranslationState) : Option Nat :=
  s.stack.head?

/-- TranslationState::pop2, returning the two values in push order. -/
def TranslationState.pop2 (s : TranslationState) :
    Option ((Nat × Nat) × TranslationState) :=
  match s.stack with
  | v2 :: v1 :: rest => some ((v1, v2), { s with stack := rest })
  | _ => none

/-- TranslationState::pop3, returning the three values in push order. -/
def TranslationState.pop3 (s : TranslationState) :
    Option ((Nat × Nat × Nat) × TranslationState) :=
  match s.stack with
  | v3 :: v2 :: v1 :: rest => some ((v1, v2, v3), { s with stack := rest })
  | _ => none

/-- TranslationState::popn.  The source computes stack.len() - n in usize and
truncates; the subtraction underflows (a Rust arithmetic error, panicking in
debug builds) when n exceeds the stack length, modelled as none. -/
def TranslationState.popn (s : TranslationState) (n : Nat) :
    Option TranslationState :=
  if n ≤ s.stack.length then some { s with stack := s.stack.drop n } else none

/-- TranslationState::peekn: the top n values in push order; the slice
indexing panics when n exceeds the stack length. -/
def TranslationState.peekn (s : TranslationState) (n : Nat) : Option (List Nat) :=
  if n ≤ s.stack.length then some ((s.stack.take n).reverse) else none

/-- TranslationState::push_block. -/
def TranslationState.push_block (s : TranslationState) (following_code : Nat)
    (num_result_types : Nat) : TranslationState :=
  { s with control_stack :=
      .Block following_code num_result_types s.stack.length false :: s.control_stack }

/-- TranslationState::push_loop. -/
def TranslationState.push_loop (s : TranslationState) (header : Nat)
    (following_code : Nat) (num_result_types : Nat) : TranslationState :=
  { s with control_stack :=
      .Loop following_code header num_result_types s.stack.length false
        :: s.control_stack }

/-- TranslationState::push_if. -/
def TranslationState.push_if (s : TranslationState) (branch_inst : Nat)
    (following_code : Nat) (num_result_types : Nat) : TranslationState :=
  { s with control_stack :=
      (.If following_code branch_inst num_result_types s.stack.length false)
        :: s.control_stack }

/-- TranslationState::in_unreachable_code (the release-build behaviour; the
debug assertion that the phantom depth is zero in reachable code is one of the
invariants proved below). -/
def TranslationState.in_unreachable_code (s : TranslationState) : Bool :=
  decide (0 < s.real_unreachable_stack_depth)

/-- TranslationState::get_global: return the cached GlobalVar reference for
the index, invoking FuncEnvironment::make_global on a miss. -/
def TranslationState.get_global (s : TranslationState) (environ : FuncEnvironment)
    (index : Nat) : GlobalValue × TranslationState :=
  match assoc_find index s.globals with
  | some v => (v, s)
  | none =>
    let v := environ.make_global index
    (v, { s with globals := s.globals ++ [(index, v)],
                 env_make_log := s.env_make_log ++ [.global index] })

/-- TranslationState::get_heap: return the cached Heap reference for the
index, invoking FuncEnvironment::make_heap on a miss. -/
def TranslationState.get_heap (s : TranslationState) (environ : FuncEnvironment)
    (index : Nat) : Nat × TranslationState :=
  match assoc_find index s.heaps with
  | some h => (h, s)
  | none =>
    let h := environ.make_heap index
    (h, { s with heaps := s.heaps ++ [(index, h)],
                 env_make_log := s.env_make_log ++ [.heap index] })

/-- TranslationState::get_indirect_sig: the cached SigRef paired with the
count of normal WebAssembly arguments of the signature. -/
def TranslationState.get_indirect_sig (s : TranslationState)
    (environ : FuncEnvironment) (index : Nat) : (Nat × Nat) × TranslationState :=
  match assoc_find index s.signatures with
  | some p => (p, s)
  | none =>
    let sig := environ.make_indirect_sig index
    let p := (sig, environ.sig_normal_args sig)
    (p, { s with signatures := s.signatures ++ [(index, p)],
                 env_make_log := s.env_make_log ++ [.sig index] })

/-- TranslationState::get_direct_func: the cached FuncRef paired with the
count of normal WebAssembly arguments of its signature. -/
def TranslationState.get_direct_func (s : TranslationState)
    (environ : FuncEnvironment) (index : Nat) : (Nat × Nat) × TranslationState :=
  match assoc_find index s.functions with
  | some p => (p, s)
  | none =>
    let fref := environ.make_direct_func index
    let p := (fref, environ.sig_normal_args (environ.ext_func_signature fref))
    (p, { s with functions := s.functions ++ [(index, p)],
                 env_make_log := s.env_make_log ++ [.func index] })


/-- Modelled from the spec: translation_utils::num_return_values lives outside
src/; per the spec a structured block type is either empty (no value) or a
single value type, so a block type is an Option Ty and the return count is its
cardinality.  type_to_type succeeds exactly on the non-empty case. -/
def num_return_values (ty : Option Ty) : Nat :=
  match ty with
  | some _ => 1
  | none => 0

/-- The control-flow, branching, memory-intrinsic and stack-management
fragment of the Wasm operator alphabet (wasmparser::Operator) that the
verified claims are about.  Straight-line numeric operators interact with the
state only through the pop/push helpers modelled above and are omitted. -/
inductive Operator where
  | Block (ty : Option Ty)
  | Loop (ty : Option Ty)
  | If (ty : Option Ty)
  | Else
  | End
  | Unreachable
  | Br (relative_depth : Nat)
  | BrIf (relative_depth : Nat)
  | BrTable (depths : List Nat) (default : Nat)
  | Return
  | GrowMemory (reserved : Nat)
  | CurrentMemory (reserved : Nat)
deriving DecidableEq, Repr

/-- Minimum of the listed depths and the default depth (the br_table
min_depth loop in code_translator.rs). -/
def br_table_min_depth (depths : List Nat) (default : Nat) : Nat :=
  depths.foldl (fun m d => if d < m then d else m) default

/-- The br_table zero-argument branch: for each listed depth, record the
frame's br_destination as a jump-table entry and mark the frame reachable;
out-of-range indexing panics. -/
def br_table_entries :
    List Nat → List ControlStackFrame → List Nat →
      Option (List ControlStackFrame × List Nat)
  | [], cs, acc => some (cs, acc)
  | d :: ds, cs, acc =>
    match cs[d]? with
    | none => none
    | some f =>
      br_table_entries ds (cs.set d f.set_reachable) (acc ++ [f.br_destination])

/-- Accumulator of the br_table edge-splitting fold: the builder, the
depth-to-trampoline map (the Rust HashMap, kept in insertion order), and the
jump-table entry list. -/
structure TrampAcc where
  builder : FunctionBuilder
  map : List (Nat × Nat)
  entries : List Nat

/-- One step of the br_table edge-splitting fold: a fresh trampoline ebb for
a depth seen for the first time, a jump-table entry either way. -/
def tramp_step (acc : TrampAcc) (depth : Nat) : TrampAcc :=
  match assoc_find depth acc.map with
  | none =>
    let (e, b1) := acc.builder.create_ebb
    { builder := b1, map := acc.map ++ [(depth, e)],
      entries := acc.entries ++ [e] }
  | some e => { acc with entries := acc.entries ++ [e] }

/-- The br_table jump-argument branch, first phase: one trampoline ebb per
distinct listed depth, and one jump-table entry per listed depth. -/
def build_trampolines (depths : List Nat) (b : FunctionBuilder) : TrampAcc :=
  depths.foldl tramp_step ⟨b, [], []⟩

/-- The br_table jump-argument branch, second phase: for each trampoline,
switch in, seal, mark the destination frame reachable and jump to its true
destination with the branch arguments.  The Rust HashMap iteration order is
modelled as insertion order (the claims proved about the result do not depend
on the order). -/
def tramp_jumps :
    List (Nat × Nat) → List Nat → FunctionBuilder → List ControlStackFrame →
      Option (FunctionBuilder × List ControlStackFrame)
  | [], _, b, cs => some (b, cs)
  | (depth, dest_ebb) :: rest, args, b, cs =>
    let b1 := (b.switch_to_block dest_ebb []).seal_block dest_ebb
    match cs[depth]? with
    | none => none
    | some frame =>
      let cs1 := cs.set depth frame.set_reachable
      let b2 := b1.emit (.jump frame.set_reachable.br_destination args)
      tramp_jumps rest args b2 cs1

/-- Translation of an operator found in an unreachable portion of the code
(code_translator.rs, translate_unreachable_operator). -/
def translate_unreachable_operator (op : Operator) (builder : FunctionBuilder)
    (state : TranslationState) :
    Option (FunctionBuilder × TranslationState) :=
  match op with
  | .If _ | .Loop _ | .Block _ =>
    some (builder,
      { state with phantom_unreachable_stack_depth :=
          state.phantom_unreachable_stack_depth + 1 })
  | .End =>
    if 0 < state.phantom_unreachable_stack_depth then
      some (builder,
        { state with phantom_unreachable_stack_depth :=
            state.phantom_unreachable_stack_depth - 1 })
    else
      match state.control_stack with
      | [] => none
      | frame :: rest =>
        let b1 := (builder.switch_to_block frame.following_code []).seal_block
          frame.following_code
        let b2 := match frame with
          | .Loop _ header _ _ _ => b1.seal_block header
          | _ => b1
        let r1 := match frame with
          | .If _ _ _ _ _ => 1
          | _ => state.real_unreachable_stack_depth
        let r2 := if frame.is_reachable then 1 else r1
        let stk1 := state.stack.drop (state.stack.length - frame.original_stack_size)
        let stk2 := if r2 = 1 then
            (b2.ebb_params frame.following_code).reverse ++ stk1
          else stk1
        some (b2, { state with control_stack := rest, stack := stk2,
                               real_unreachable_stack_depth := r2 - 1 })
  | .Else =>
    if 0 < state.phantom_unreachable_stack_depth then
      some (builder, state)
    else
      match state.control_stack with
      | .If destination branch_inst n oss r :: rest =>
        let (else_ebb, b1) := builder.create_ebb
        let b2 := b1.change_jump_destination branch_inst else_ebb
        let b3 := (b2.seal_block else_ebb).switch_to_block else_ebb []
        some (b3, { state with
                      control_stack := (.If destination branch_inst n oss r) :: rest,
                      stack := state.stack.drop (state.stack.length - oss),
                      real_unreachable_stack_depth := 0 })
      | _ => none
  | _ => some (builder, state)

/-- Translation of a single Wasm operator (code_translator.rs,
translate_operator), restricted to the embedded operator fragment. -/
def translate_operator (op : Operator) (builder : FunctionBuilder)
    (state : TranslationState) (environ : FuncEnvironment) :
    Option (FunctionBuilder × TranslationState) :=
  if state.in_unreachable_code then
    translate_unreachable_operator op builder state
  else
    match op with
    | .Block ty =>
      let (next, b1) := builder.create_ebb
      let b2 := match ty with
        | some t => (b1.append_ebb_param next t).2
        | none => b1
      some (b2, state.push_block next (num_return_values ty))
    | .Loop ty =>
      let (loop_body, b1) := builder.create_ebb
      let (next, b2) := b1.create_ebb
      let b3 := match ty with
        | some t => (b2.append_ebb_param next t).2
        | none => b2
      let b4 := b3.emit (.jump loop_body [])
      let st := state.push_loop loop_body next (num_return_values ty)
      some (b4.switch_to_block loop_body [], st)
    | .If ty =>
      match state.pop1 with
      | none => none
      | some (val, st1) =>
        let (if_not, b1) := builder.create_ebb
        let (jump_inst, b2) := b1.emit_inst (.brz val if_not [])
        let b3 := match ty with
          | some t => (b2.append_ebb_param if_not t).2
          | none => b2
        some (b3, st1.push_if jump_inst if_not (num_return_values ty))
    | .Else =>
      match state.control_stack with
      | .If destination branch_inst return_count oss r :: rest =>
        match state.peekn return_count with
        | none => none
        | some args =>
          let b1 := builder.emit (.jump destination args)
          match state.popn return_count with
          | none => none
          | some st1 =>
            let (else_ebb, b2) := b1.create_ebb
            let b3 := b2.change_jump_destination branch_inst else_ebb
            let b4 := (b3.seal_block else_ebb).switch_to_block else_ebb []
            some (b4, { st1 with
                          control_stack :=
                            (.If destination branch_inst return_count oss r) :: rest })
      | _ => none
    | .End =>
      match state.control_stack with
      | [] => none
      | frame :: rest =>
        let return_count := frame.num_return_values
        match state.peekn return_count with
        | none => none
        | some args =>
          let b1 := if !builder.is_unreachable || !builder.is_pristine then
              builder.emit (.jump frame.following_code args)
            else builder
          let b2 := (b1.switch_to_block frame.following_code args).seal_block
            frame.following_code
          let b3 := match frame with
            | .Loop _ header _ _ _ => b2.seal_block header
            | _ => b2
          let stk1 := state.stack.drop
            (state.stack.length - frame.original_stack_size)
          let stk2 := (b3.ebb_params frame.following_code).reverse ++ stk1
          some (b3, { state with control_stack := rest, stack := stk2 })
    | .Unreachable =>
      some (builder.emit (.trap 0), { state with real_unreachable_stack_depth := 1 })
    | .Br relative_depth =>
      match state.control_stack[relative_depth]? with
      | none => none
      | some frame =>
        let cs1 := state.control_stack.set relative_depth frame.set_reachable
        let return_count := if frame.is_loop then 0 else frame.num_return_values
        match state.peekn return_count with
        | none => none
        | some args =>
          match state.popn return_count with
          | none => none
          | some st1 =>
            some (builder.emit (.jump frame.br_destination args),
              { st1 with control_stack := cs1,
                         real_unreachable_stack_depth := 1 + relative_depth })
    | .BrIf relative_depth =>
      match state.pop1 with
      | none => none
      | some (val, st1) =>
        match st1.control_stack[relative_depth]? with
        | none => none
        | some frame =>
          let cs1 := st1.control_stack.set relative_depth frame.set_reachable
          let return_count := if frame.is_loop then 0 else frame.num_return_values
          match st1.peekn return_count with
          | none => none
          | some args =>
            some (builder.emit (.brnz val frame.br_destination args),
              { st1 with control_stack := cs1 })
    | .BrTable depths default =>
      let min_depth := br_table_min_depth depths default
      match state.control_stack[min_depth]? with
      | none => none
      | some min_depth_frame =>
        let jump_args_count :=
          if min_depth_frame.is_loop then 0 else min_depth_frame.num_return_values
        if jump_args_count = 0 then
          match state.pop1 with
          | none => none
          | some (val, st1) =>
            match br_table_entries depths st1.control_stack [] with
            | none => none
            | some (cs1, entries) =>
              let (jt, b1) := builder.create_jump_table entries
              let b2 := b1.emit (.br_table val jt)
              match cs1[default]? with
              | none => none
              | some frame =>
                let b3 := b2.emit (.jump frame.br_destination [])
                some (b3, { st1 with
                              control_stack := cs1.set default frame.set_reachable,
                              real_unreachable_stack_depth := 1 + min_depth })
        else
          match state.pop1 with
          | none => none
          | some (val, st1) =>
            let return_count := jump_args_count
            let tr := build_trampolines depths builder
            let (jt, b1) := tr.builder.create_jump_table tr.entries
            let b2 := b1.emit (.br_table val jt)
            match st1.control_stack[default]? with
            | none => none
            | some default_frame =>
              match st1.peekn return_count with
              | none => none
              | some args =>
                let b3 := b2.emit (.jump default_frame.br_destination args)
                match tramp_jumps tr.map args b3 st1.control_stack with
                | none => none
                | some (b4, cs1) =>
                  match ({ st1 with control_stack := cs1 } :
                      TranslationState).popn return_count with
                  | none => none
                  | some st2 =>
                    some (b4, { st2 with
                                  real_unreachable_stack_depth := 1 + min_depth })
    | .Return =>
      match state.control_stack.getLast? with
      | none => none
      | some frame =>
        let cs1 := state.control_stack.set (state.control_stack.length - 1)
          frame.set_reachable
        let return_count := frame.num_return_values
        match state.peekn return_count with
        | none => none
        | some args =>
          let b1 := if environ.return_at_end then
              builder.emit (.jump frame.br_destination args)
            else builder.emit (.return_values args)
          match state.popn return_count with
          | none => none
          | some st1 =>
            some (b1, { st1 with control_stack := cs1,
                                 real_unreachable_stack_depth := 1 })
    | .GrowMemory reserved =>
      let (heap, st1) := state.get_heap environ reserved
      match st1.pop1 with
      | none => none
      | some (val, st2) =>
        let (res, b1) := builder.fresh_value
        let b2 := b1.emit (.env_grow_memory res reserved heap val)
        some (b2, st2.push1 res)
    | .CurrentMemory reserved =>
      let (heap, st1) := state.get_heap environ reserved
      let (res, b1) := builder.fresh_value
      let b2 := b1.emit (.env_current_memory res reserved heap)
      some (b2, st1.push1 res)

/-- Cast of a nonnegative i64 value to u32 (the as-u32 in get_heap_addr). -/
def i64_as_u32 (x : Int) : Nat :=
  (x % 2 ^ 32).toNat

/-- Cast of a u32 value to i32 (the as-i32 in get_heap_addr). -/
def u32_as_i32 (n : Nat) : Int :=
  if n < 2 ^ 31 then (n : Int) else (n : Int) - 2 ^ 32

/-- The heap address former (code_translator.rs, get_heap_addr).  The guard
size of the heap lives in the IR function's heap table, external to the
embedded fragment, and is passed explicitly as the i64 it is read as; the
assertion that it is positive is modelled as none.  Returns the builder, the
base value and the signed 32-bit offset. -/
def get_heap_addr (guard_size : Int) (heap : Nat) (addr32 : Nat) (offset : Nat)
    (builder : FunctionBuilder) : Option (FunctionBuilder × Nat × Int) :=
  if guard_size ≤ 0 then none
  else
    let check_size : Nat := i64_as_u32
      (min ((2 : Int) ^ 32 - 1) (1 + ((offset : Int) / guard_size) * guard_size))
    let (base, b1) := builder.fresh_value
    let b2 := b1.emit (.heap_addr base heap addr32 check_size)
    if (2 ^ 31 - 1 : Nat) < offset then
      let (adj, b3) := b2.fresh_value
      let b4 := b3.emit (.iadd_imm adj base ((2 : Int) ^ 31 - 1 + 1))
      some (b4, adj, u32_as_i32 (offset - (2 ^ 31 - 1 + 1)))
    else
      some (b2, base, u32_as_i32 offset)

/-- Run a list of operators in sequence (the entry driver's per-opcode loop). -/
def run_operators (environ : FuncEnvironment) :
    List Operator → FunctionBuilder → TranslationState →
      Option (FunctionBuilder × TranslationState)
  | [], b, s => some (b, s)
  | op :: w, b, s =>
    match translate_operator op b s environ with
    | none => none
    | some (b1, s1) => run_operators environ w b1 s1

/-- Observable projection of a translation result: event log, control stack,
real and phantom unreachable depths, operand stack. -/
def obs (r : Option (FunctionBuilder × TranslationState)) :
    Option (List Event × List ControlStackFrame × Nat × Nat × List Nat) :=
  r.map fun p =>
    (p.1.events, p.2.control_stack, p.2.real_unreachable_stack_depth,
     p.2.phantom_unreachable_stack_depth, p.2.stack)

/-- Event log of a translation result. -/
def events_of (r : Option (FunctionBuilder × TranslationState)) :
    Option (List Event) :=
  r.map fun p => p.1.events

/-- Control frame at a given depth in a translation result. -/
def frame_at (r : Option (FunctionBuilder × TranslationState)) (i : Nat) :
    Option ControlStackFrame :=
  match r with
  | some p => p.2.control_stack[i]?
  | none => none

/-- Signed offset component of a get_heap_addr result. -/
def heap_addr_result_off (r : Option (FunctionBuilder × Nat × Int)) : Option Int :=
  r.map fun p => p.2.2

/-- Event log of a get_heap_addr result. -/
def heap_addr_events (r : Option (FunctionBuilder × Nat × Int)) :
    Option (List Event) :=
  r.map fun p => p.1.events

/-- The signed 32-bit offset the heap address former is specified to return:
the static offset itself, rebased by INT32_MAX + 1 when it does not fit. -/
def heap_offset_spec (offset : Nat) : Int :=
  if (2 ^ 31 - 1 : Nat) < offset then (offset : Int) - 2 ^ 31 else (offset : Int)

/-- Well-bracketed operator suffixes: Closes d w means the word w consists of
structured openings (block / loop / if), each matched by its own end, plus
exactly d additional matching ends that close d constructs already open when
the word starts. -/
inductive Closes : Nat → List Operator → Prop where
  | nil : Closes 0 []
  | close (d : Nat) (w : List Operator) :
      Closes d w → Closes (d + 1) (Operator.End :: w)
  | openB (d : Nat) (w : List Operator) (ty : Option Ty) :
      Closes (d + 1) w → Closes d (Operator.Block ty :: w)
  | openL (d : Nat) (w : List Operator) (ty : Option Ty) :
      Closes (d + 1) w → Closes d (Operator.Loop ty :: w)
  | openI (d : Nat) (w : List Operator) (ty : Option Ty) :
      Closes (d + 1) w → Closes d (Operator.If ty :: w)

/-- The debug assertion of in_unreachable_code: a positive phantom depth may
only occur while the real depth is positive. -/
def PhantomImpReal (s : TranslationState) : Prop :=
  0 < s.phantom_unreachable_stack_depth → 0 < s.real_unreachable_stack_depth

/-- Invariant tying the translation state to the number d of pending matching
ends of a Closes word. -/
def ReachInv (s : TranslationState) (d : Nat) : Prop :=
  (s.real_unreachable_stack_depth = 0 → s.phantom_unreachable_stack_depth = 0) ∧
  (0 < s.real_unreachable_stack_depth →
    s.real_unreachable_stack_depth + s.phantom_unreachable_stack_depth ≤ d)

/-- P holds at the initial state and at every state reached by successfully
translating a prefix of the operator word. -/
def StatesOK (environ : FuncEnvironment) (P : TranslationState → Prop) :
    List Operator → FunctionBuilder → TranslationState → Prop
  | [], _, s => P s
  | op :: w, b, s =>
    P s ∧ ∀ b1 s1, translate_operator op b s environ = some (b1, s1) →
      StatesOK environ P w b1 s1

/-- The operators that enter unreachable code from a reachable state. -/
def IsEnterOp : Operator → Prop
  | .Unreachable => True
  | .Br _ => True
  | .Return => True
  | .BrTable _ _ => True
  | _ => False

/-- Result of one entity-cache access (claim C8 covers all four caches). -/
inductive EntityHandle where
  | global_h (g : GlobalValue)
  | heap_h (h : Nat)
  | sig_h (sig : Nat) (nargs : Nat)
  | func_h (fref : Nat) (nargs : Nat)
deriving DecidableEq, Repr

/-- Perform one get_* cache access, by kind. -/
def run_entity_get (environ : FuncEnvironment) (g : EntityRef)
    (s : TranslationState) : EntityHandle × TranslationState :=
  match g with
  | .global i =>
    let (v, s1) := s.get_global environ i
    (.global_h v, s1)
  | .heap i =>
    let (h, s1) := s.get_heap environ i
    (.heap_h h, s1)
  | .sig i =>
    let (p, s1) := s.get_indirect_sig environ i
    (.sig_h p.1 p.2, s1)
  | .func i =>
    let (p, s1) := s.get_direct_func environ i
    (.func_h p.1 p.2, s1)

/-- Perform a sequence of cache accesses. -/
def run_entity_gets (environ : FuncEnvironment) (l : List EntityRef)
    (s : TranslationState) : TranslationState :=
  l.foldl (fun s g => (run_entity_get environ g s).2) s

/-- The handle each cache access is specified to yield, determined by the
environment oracle alone. -/
def canonical_handle (environ : FuncEnvironment) : EntityRef → EntityHandle
  | .global i => .global_h (environ.make_global i)
  | .heap i => .heap_h (environ.make_heap i)
  | .sig i =>
    .sig_h (environ.make_indirect_sig i)
      (environ.sig_normal_args (environ.make_indirect_sig i))
  | .func i =>
    .func_h (environ.make_direct_func i)
      (environ.sig_normal_args
        (environ.ext_func_signature (environ.make_direct_func i)))

/-- Whether an entity is present in its cache. -/
def InCache : EntityRef → TranslationState → Prop
  | .global i, s => (assoc_find i s.globals).isSome = true
  | .heap i, s => (assoc_find i s.heaps).isSome = true
  | .sig i, s => (assoc_find i s.signatures).isSome = true
  | .func i, s => (assoc_find i s.functions).isSome = true

/-- Cache consistency: every cached entry is the one the environment mints,
every make_* operation has been invoked at most once, and only for entities
that are now cached. -/
def CacheConsistent (environ : FuncEnvironment) (s : TranslationState) : Prop :=
  (∀ p ∈ s.globals, p.2 = environ.make_global p.1) ∧
  (∀ p ∈ s.heaps, p.2 = environ.make_heap p.1) ∧
  (∀ p ∈ s.signatures,
    p.2 = (environ.make_indirect_sig p.1,
           environ.sig_normal_args (environ.make_indirect_sig p.1))) ∧
  (∀ p ∈ s.functions,
    p.2 = (environ.make_direct_func p.1,
           environ.sig_normal_args
             (environ.ext_func_signature (environ.make_direct_func p.1)))) ∧
  (∀ g : EntityRef, s.env_make_log.count g ≤ 1) ∧
  (∀ g : EntityRef, 0 < s.env_make_log.count g → InCache g s)

/-- All four caches and the invocation log are empty (the state produced by
TranslationState::new / clear). -/
def EmptyCaches (s : TranslationState) : Prop :=
  s.globals = [] ∧ s.heaps = [] ∧ s.signatures = [] ∧ s.functions = [] ∧
  s.env_make_log = []

/-- A concrete deterministic environment used by witnesses and
counterexamples; distinct indices get distinct handles. -/
def env0 : FuncEnvironment :=
  { make_global := fun i => GlobalValue.const (1000 + i),
    make_heap := fun i => 100 + i,
    make_indirect_sig := fun i => 200 + i,
    make_direct_func := fun i => 300 + i,
    sig_normal_args := fun s => s % 7,
    ext_func_signature := fun f => 400 + f,
    return_at_end := true }

/-- A fresh builder that has already created n ebbs (none with parameters). -/
def builder0 (n : Nat) : FunctionBuilder :=
  { next_ebb := n, next_value := 50, next_inst := 0,
    ebb_params_tab := List.replicate n [], jump_tables := [], events := [],
    is_unreachable := false, is_pristine := false }

/-- A fresh translation state. -/
def state0 : TranslationState :=
  { stack := [], control_stack := [],
    phantom_unreachable_stack_depth := 0, real_unreachable_stack_depth := 0,
    globals := [], heaps := [], signatures := [], functions := [],
    env_make_log := [] }

/-- Counterexample input for claim C1: a reachable End translated while the
builder's current block is pristine (just switched to) but not unreachable. -/
def c1x_builder : FunctionBuilder :=
  { builder0 1 with is_pristine := true }

/-- Counterexample state for claim C1: one open Block frame. -/
def c1x_state : TranslationState :=
  { state0 with control_stack := [ControlStackFrame.Block 0 0 0 false] }

/-- Counterexample input for claim C4: two Block frames wanting one jump
argument; the br_table lists only depth 0 while the default depth is 1. -/
def c4x_builder : FunctionBuilder :=
  builder0 30

/-- Counterexample state for claim C4. -/
def c4x_state : TranslationState :=
  { state0 with stack := [5, 6],
                control_stack := [ControlStackFrame.Block 10 1 0 false,
                                  ControlStackFrame.Block 20 1 0 false] }

/-- Counterexample state for claim C9: one value on the stack for the
grow_memory delta; the operator carries the reserved memory index 1. -/
def c9x_state : TranslationState :=
  { state0 with stack := [7],
                control_stack := [ControlStackFrame.Block 0 0 0 false] }

/-- C6: every popping operation of the operand stack (pop1, pop2, pop3, popn)
signals a fatal programmer error (modelled as none) exactly when the stack
holds fewer values than the operation removes; for popn n, exactly when n
exceeds the current stack length. -/
theorem c6_pop_underflow (s : TranslationState) (n : Nat) :
    (s.pop1 = none ↔ s.stack.length < 1) ∧
    (s.pop2 = none ↔ s.stack.length < 2) ∧
    (s.pop3 = none ↔ s.stack.length < 3) ∧
    (s.popn n = none ↔ s.stack.length < n) := by
  refine ⟨?_, ?_, ?_, ?_⟩
  · rcases hs : s.stack with _ | ⟨a, t⟩ <;> simp [TranslationState.pop1, hs]
  · rcases hs : s.stack with _ | ⟨a, _ | ⟨b, t⟩⟩ <;>
      simp [TranslationState.pop2, hs]
  · rcases hs : s.stack with _ | ⟨a, _ | ⟨b, _ | ⟨c, t⟩⟩⟩ <;>
      simp [TranslationState.pop3, hs]
  · simp only [TranslationState.popn, ite_eq_right_iff]
    constructor
    · intro h
      by_contra hlt
      simp at hlt
      exact Option.noConfusion (h (by omega))
    · intro h
      intro hle
      omega


/-- The check size min(2^32 - 1, 1 + (offset / G) * G) computed over i64 and
cast to u32 equals the same quantization computed over Nat. -/
theorem i64_as_u32_check_size (G offset : Nat) (hG : 0 < G) :
    i64_as_u32 (min ((2 : Int) ^ 32 - 1)
        (1 + ((offset : Int) / (G : Int)) * (G : Int))) =
      min (2 ^ 32 - 1) (1 + offset / G * G) := by
  have hdiv : ((offset : Int) / (G : Int)) = ((offset / G : Nat) : Int) :=
    (Int.natCast_div offset G).symm
  have hA : (1 + ((offset / G : Nat) : Int) * (G : Int)) =
      ((1 + offset / G * G : Nat) : Int) := by
    push_cast
    ring
  have h2 : ((2 : Int) ^ 32 - 1) = ((2 ^ 32 - 1 : Nat) : Int) := by norm_num
  have hbound : (min (2 ^ 32 - 1) (1 + offset / G * G) : Nat) < 2 ^ 32 := by
    have := min_le_left (2 ^ 32 - 1 : Nat) (1 + offset / G * G)
    omega
  simp only [i64_as_u32]
  rw [hdiv, hA, h2, ← Nat.cast_min]
  rw [Int.emod_eq_of_lt (by positivity) (by exact_mod_cast hbound)]
  exact Int.toNat_natCast _

/-- C5: for every heap with positive guard size G and every 32-bit static
offset, the heap address former passes check size min(2^32 - 1, 1 + (offset /
G) * G) to the emitted heap_addr instruction, and the returned signed offset
is offset - (INT32_MAX + 1) when offset exceeds INT32_MAX and offset itself
otherwise; in both cases it fits in signed 32 bits and the base adjustment
plus the returned offset equals the original offset exactly. -/
theorem c5_heap_addr_check_and_offset (G heap addr32 offset : Nat)
    (b : FunctionBuilder) (hG : 0 < G) (hoff : offset < 2 ^ 32) :
    (∃ v tail, heap_addr_events (get_heap_addr (G : Int) heap addr32 offset b) =
        some (b.events ++
          Event.heap_addr v heap addr32 (min (2 ^ 32 - 1) (1 + offset / G * G))
            :: tail)) ∧
    heap_addr_result_off (get_heap_addr (G : Int) heap addr32 offset b) =
      some (heap_offset_spec offset) ∧
    -(2 : Int) ^ 31 ≤ heap_offset_spec offset ∧
    heap_offset_spec offset < 2 ^ 31 ∧
    (if (2 ^ 31 - 1 : Nat) < offset then ((2 : Int) ^ 31) else 0) +
        heap_offset_spec offset = (offset : Int) := by
  have hGne : ¬ ((G : Int) ≤ 0) := by
    omega
  have hcs := i64_as_u32_check_size G offset hG
  unfold get_heap_addr
  rw [if_neg hGne]
  simp only [FunctionBuilder.fresh_value, FunctionBuilder.emit, hcs]
  by_cases hbig : (2 ^ 31 - 1 : Nat) < offset
  · rw [if_pos hbig]
    unfold heap_offset_spec
    rw [if_pos hbig]
    refine ⟨⟨b.next_value, [Event.iadd_imm (b.next_value + 1) b.next_value
      ((2 : Int) ^ 31 - 1 + 1)], ?_⟩, ?_, ?_, ?_, ?_⟩
    · simp [heap_addr_events, List.append_assoc]
    · simp only [heap_addr_result_off, Option.map_some', u32_as_i32,
        Option.some.injEq]
      split
      · omega
      · omega
    · omega
    · omega
    · rw [if_pos hbig]
      ring
  · rw [if_neg hbig]
    unfold heap_offset_spec
    rw [if_neg hbig]
    refine ⟨⟨b.next_value, [], ?_⟩, ?_, ?_, ?_, ?_⟩
    · simp [heap_addr_events]
    · simp only [heap_addr_result_off, Option.map_some', u32_as_i32,
        Option.some.injEq]
      split
      · omega
      · omega
    · omega
    · omega
    · rw [if_neg hbig]
      ring

/-- C5 witness: the theorem applied at guard size 3 and static offset
2^31 + 10, which exercises the base-adjustment branch. -/
theorem c5_heap_addr_witness :
    (0 : Nat) < 3 ∧ (2 ^ 31 + 10 : Nat) < 2 ^ 32 ∧
    heap_addr_result_off
        (get_heap_addr ((3 : Nat) : Int) 0 42 (2 ^ 31 + 10) (builder0 1)) =
      some (heap_offset_spec (2 ^ 31 + 10)) :=
  ⟨by norm_num, by norm_num,
   (c5_heap_addr_check_and_offset 3 0 42 (2 ^ 31 + 10) (builder0 1)
     (by norm_num) (by norm_num)).2.1⟩

/-- Association lookup ignores a suffix once it has found a binding. -/
theorem assoc_find_append_of_some {α : Type} (i : Nat) {l : List (Nat × α)}
    (l2 : List (Nat × α)) {v : α} (h : assoc_find i l = some v) :
    assoc_find i (l ++ l2) = some v := by
  induction l with
  | nil => exact absurd h (by simp [assoc_find])
  | cons p t ih =>
    rw [List.cons_append]
    simp only [assoc_find] at h ⊢
    by_cases hp : p.1 = i
    · rwa [if_pos hp] at h ⊢
    · rw [if_neg hp] at h ⊢
      exact ih h

/-- Association lookup falls through to the suffix when the prefix has no
binding. -/
theorem assoc_find_append_of_none {α : Type} (i : Nat) {l : List (Nat × α)}
    (l2 : List (Nat × α)) (h : assoc_find i l = none) :
    assoc_find i (l ++ l2) = assoc_find i l2 := by
  induction l with
  | nil => simp
  | cons p t ih =>
    rw [List.cons_append]
    simp only [assoc_find] at h ⊢
    by_cases hp : p.1 = i
    · rw [if_pos hp] at h
      exact absurd h (by simp)
    · rw [if_neg hp] at h ⊢
      exact ih h

/-- A found binding is a member of the association list. -/
theorem assoc_find_mem {α : Type} (i : Nat) {l : List (Nat × α)} {v : α}
    (h : assoc_find i l = some v) : (i, v) ∈ l := by
  induction l with
  | nil => exact absurd h (by simp [assoc_find])
  | cons p t ih =>
    obtain ⟨j, w⟩ := p
    simp only [assoc_find] at h
    by_cases hp : j = i
    · rw [if_pos hp] at h
      simp only [Option.some.injEq] at h
      subst hp
      subst h
      exact List.mem_cons_self _ _
    · rw [if_neg hp] at h
      exact List.mem_cons_of_mem _ (ih h)

/-- One cache access returns the environment-determined handle and preserves
cache consistency. -/
theorem run_entity_get_spec (environ : FuncEnvironment) (g : EntityRef)
    (s : TranslationState) (h : CacheConsistent environ s) :
    (run_entity_get environ g s).1 = canonical_handle environ g ∧
    CacheConsistent environ (run_entity_get environ g s).2 := by
  obtain ⟨hg, hh, hs, hf, hcount, hmem⟩ := h
  cases g with
  | global i =>
    simp only [run_entity_get, TranslationState.get_global, canonical_handle]
    rcases hfind : assoc_find i s.globals with _ | v
    · simp only [hfind]
      refine ⟨by trivial, ?_, ?_, ?_, ?_, ?_, ?_⟩
      · intro p hp
        rcases List.mem_append.1 hp with hcase | hcase
        · exact hg p hcase
        · simp at hcase
          simp [hcase]
      · exact hh
      · exact hs
      · exact hf
      · intro g'
        rw [List.count_append, List.count_singleton']
        by_cases hgg : g' = EntityRef.global i
        · have hz : s.env_make_log.count g' = 0 := by
            by_contra hnz
            have : InCache g' s := hmem g' (by omega)
            rw [hgg] at this
            simp only [InCache, hfind, Option.isSome_none] at this
            exact absurd this (by simp)
          rw [hz, hgg]
          simp
        · have : ¬ (EntityRef.global i = g') := fun hx => hgg hx.symm
          rw [if_neg this]
          simpa using hcount g'
      · intro g' hpos
        rw [List.count_append, List.count_singleton'] at hpos
        by_cases hgg : EntityRef.global i = g'
        · subst hgg
          simp only [InCache]
          rw [assoc_find_append_of_none _ _ hfind]
          simp [assoc_find]
        · rw [if_neg hgg] at hpos
          have hpos' : 0 < s.env_make_log.count g' := by omega
          have hin := hmem g' hpos'
          cases g' with
          | global j =>
            simp only [InCache] at hin ⊢
            rcases Option.isSome_iff_exists.1 hin with ⟨w, hw⟩
            rw [assoc_find_append_of_some _ _ hw]
            simp
          | heap j => exact hin
          | sig j => exact hin
          | func j => exact hin
    · simp only [hfind]
      have hv := hg _ (assoc_find_mem i hfind)
      simp only at hv
      exact ⟨by rw [hv], hg, hh, hs, hf, hcount, hmem⟩
  | heap i =>
    simp only [run_entity_get, TranslationState.get_heap, canonical_handle]
    rcases hfind : assoc_find i s.heaps with _ | v
    · simp only [hfind]
      refine ⟨by trivial, ?_, ?_, ?_, ?_, ?_, ?_⟩
      · exact hg
      · intro p hp
        rcases List.mem_append.1 hp with hcase | hcase
        · exact hh p hcase
        · simp at hcase
          simp [hcase]
      · exact hs
      · exact hf
      · intro g'
        rw [List.count_append, List.count_singleton']
        by_cases hgg : g' = EntityRef.heap i
        · have hz : s.env_make_log.count g' = 0 := by
            by_contra hnz
            have : InCache g' s := hmem g' (by omega)
            rw [hgg] at this
            simp only [InCache, hfind, Option.isSome_none] at this
            exact absurd this (by simp)
          rw [hz, hgg]
          simp
        · have : ¬ (EntityRef.heap i = g') := fun hx => hgg hx.symm
          rw [if_neg this]
          simpa using hcount g'
      · intro g' hpos
        rw [List.count_append, List.count_singleton'] at hpos
        by_cases hgg : EntityRef.heap i = g'
        · subst hgg
          simp only [InCache]
          rw [assoc_find_append_of_none _ _ hfind]
          simp [assoc_find]
        · rw [if_neg hgg] at hpos
          have hpos' : 0 < s.env_make_log.count g' := by omega
          have hin := hmem g' hpos'
          cases g' with
          | heap j =>
            simp only [InCache] at hin ⊢
            rcases Option.isSome_iff_exists.1 hin with ⟨w, hw⟩
            rw [assoc_find_append_of_some _ _ hw]
            simp
          | global j => exact hin
          | sig j => exact hin
          | func j => exact hin
    · simp only [hfind]
      have hv := hh _ (assoc_find_mem i hfind)
      simp only at hv
      exact ⟨by rw [hv], hg, hh, hs, hf, hcount, hmem⟩
  | sig i =>
    simp only [run_entity_get, TranslationState.get_indirect_sig, canonical_handle]
    rcases hfind : assoc_find i s.signatures with _ | v
    · simp only [hfind]
      refine ⟨by trivial, ?_, ?_, ?_, ?_, ?_, ?_⟩
      · exact hg
      · exact hh
      · intro p hp
        rcases List.mem_append.1 hp with hcase | hcase
        · exact hs p hcase
        · simp at hcase
          simp [hcase]
      · exact hf
      · intro g'
        rw [List.count_append, List.count_singleton']
        by_cases hgg : g' = EntityRef.sig i
        · have hz : s.env_make_log.count g' = 0 := by
            by_contra hnz
            have : InCache g' s := hmem g' (by omega)
            rw [hgg] at this
            simp only [InCache, hfind, Option.isSome_none] at this
            exact absurd this (by simp)
          rw [hz, hgg]
          simp
        · have : ¬ (EntityRef.sig i = g') := fun hx => hgg hx.symm
          rw [if_neg this]
          simpa using hcount g'
      · intro g' hpos
        rw [List.count_append, List.count_singleton'] at hpos
        by_cases hgg : EntityRef.sig i = g'
        · subst hgg
          simp only [InCache]
          rw [assoc_find_append_of_none _ _ hfind]
          simp [assoc_find]
        · rw [if_neg hgg] at hpos
          have hpos' : 0 < s.env_make_log.count g' := by omega
          have hin := hmem g' hpos'
          cases g' with
          | sig j =>
            simp only [InCache] at hin ⊢
            rcases Option.isSome_iff_exists.1 hin with ⟨w, hw⟩
            rw [assoc_find_append_of_some _ _ hw]
            simp
          | global j => exact hin
          | heap j => exact hin
          | func j => exact hin
    · simp only [hfind]
      have hv := hs _ (assoc_find_mem i hfind)
      simp only at hv
      refine ⟨?_, hg, hh, hs, hf, hcount, hmem⟩
      rw [hv]
  | func i =>
    simp only [run_entity_get, TranslationState.get_direct_func, canonical_handle]
    rcases hfind : assoc_find i s.functions with _ | v
    · simp only [hfind]
      refine ⟨by trivial, ?_, ?_, ?_, ?_, ?_, ?_⟩
      · exact hg
      · exact hh
      · exact hs
      · intro p hp
        rcases List.mem_append.1 hp with hcase | hcase
        · exact hf p hcase
        · simp at hcase
          simp [hcase]
      · intro g'
        rw [List.count_append, List.count_singleton']
        by_cases hgg : g' = EntityRef.func i
        · have hz : s.env_make_log.count g' = 0 := by
            by_contra hnz
            have : InCache g' s := hmem g' (by omega)
            rw [hgg] at this
            simp only [InCache, hfind, Option.isSome_none] at this
            exact absurd this (by simp)
          rw [hz, hgg]
          simp
        · have : ¬ (EntityRef.func i = g') := fun hx => hgg hx.symm
          rw [if_neg this]
          simpa using hcount g'
      · intro g' hpos
        rw [List.count_append, List.count_singleton'] at hpos
        by_cases hgg : EntityRef.func i = g'
        · subst hgg
          simp only [InCache]
          rw [assoc_find_append_of_none _ _ hfind]
          simp [assoc_find]
        · rw [if_neg hgg] at hpos
          have hpos' : 0 < s.env_make_log.count g' := by omega
          have hin := hmem g' hpos'
          cases g' with
          | func j =>
            simp only [InCache] at hin ⊢
            rcases Option.isSome_iff_exists.1 hin with ⟨w, hw⟩
            rw [assoc_find_append_of_some _ _ hw]
            simp
          | global j => exact hin
          | heap j => exact hin
          | sig j => exact hin
    · simp only [hfind]
      have hv := hf _ (assoc_find_mem i hfind)
      simp only at hv
      refine ⟨?_, hg, hh, hs, hf, hcount, hmem⟩
      rw [hv]

/-- A sequence of cache accesses preserves cache consistency. -/
theorem run_entity_gets_spec (environ : FuncEnvironment) (l : List EntityRef) :
    ∀ s : TranslationState, CacheConsistent environ s →
      CacheConsistent environ (run_entity_gets environ l s) := by
  induction l with
  | nil => exact fun s h => h
  | cons g t ih =>
    intro s h
    exact ih _ (run_entity_get_spec environ g s h).2

/-- C8: starting from empty caches, any two accesses for the same entity
during the same function translation, however many other cache accesses come
before or between them, return identical handles (with identical cached
argument counts where applicable), and the corresponding environment make_*
operation is invoked at most once for that entity. -/
theorem c8_entity_cache_idempotence (environ : FuncEnvironment) (g : EntityRef)
    (ops1 ops2 : List EntityRef) (s0 : TranslationState) (h : EmptyCaches s0) :
    (run_entity_get environ g (run_entity_gets environ ops1 s0)).1 =
      (run_entity_get environ g (run_entity_gets environ ops2
        (run_entity_get environ g (run_entity_gets environ ops1 s0)).2)).1 ∧
    ((run_entity_get environ g (run_entity_gets environ ops2
        (run_entity_get environ g
          (run_entity_gets environ ops1 s0)).2)).2).env_make_log.count g ≤ 1 := by
  obtain ⟨h1, h2, h3, h4, h5⟩ := h
  have hc0 : CacheConsistent environ s0 := by
    refine ⟨?_, ?_, ?_, ?_, ?_, ?_⟩ <;> simp [h1, h2, h3, h4, h5]
  have hc1 := run_entity_gets_spec environ ops1 s0 hc0
  have hspec1 := run_entity_get_spec environ g _ hc1
  have hc2 := run_entity_gets_spec environ ops2 _ hspec1.2
  have hspec2 := run_entity_get_spec environ g _ hc2
  exact ⟨by rw [hspec1.1, hspec2.1], hspec2.2.2.2.2.2.1 g⟩

/-- C8 witness: the theorem applied at the global cache for index 2, with a
first access preceded by accesses to global 2 and heap 1 and a second access
preceded by an access to signature 0. -/
theorem c8_entity_cache_witness :
    EmptyCaches state0 ∧
    ((run_entity_get env0 (EntityRef.global 2)
        (run_entity_gets env0 [EntityRef.global 2, EntityRef.heap 1] state0)).1 =
      (run_entity_get env0 (EntityRef.global 2)
        (run_entity_gets env0 [EntityRef.sig 0]
          (run_entity_get env0 (EntityRef.global 2)
            (run_entity_gets env0 [EntityRef.global 2, EntityRef.heap 1]
              state0)).2)).1 ∧
     ((run_entity_get env0 (EntityRef.global 2)
        (run_entity_gets env0 [EntityRef.sig 0]
          (run_entity_get env0 (EntityRef.global 2)
            (run_entity_gets env0 [EntityRef.global 2, EntityRef.heap 1]
              state0)).2)).2).env_make_log.count (EntityRef.global 2) ≤ 1) :=
  ⟨by exact ⟨rfl, rfl, rfl, rfl, rfl⟩,
   c8_entity_cache_idempotence env0 (EntityRef.global 2)
     [EntityRef.global 2, EntityRef.heap 1] [EntityRef.sig 0] state0
     (by exact ⟨rfl, rfl, rfl, rfl, rfl⟩)⟩

/-- C1 counterexample: the claim says the End jump is skipped whenever the
current block is unreachable or pristine; here the block is pristine (and
reachable) and the code does emit the fall-through jump, refuting the claim
as stated. -/
theorem c1_end_jump_skip_refuted :
    c1x_builder.is_pristine = true ∧ c1x_builder.is_unreachable = false ∧
    events_of (translate_operator .End c1x_builder c1x_state env0) =
      some [Event.jump 0 [], Event.switch_to 0 [], Event.seal 0] :=
  ⟨rfl, rfl, rfl⟩

/-- C1 amended: when the reachable dispatcher translates End, it pops the
innermost control frame and emits a jump to the frame's destination carrying
the top num_returns stack values exactly when the current block is not both
unreachable and pristine (the jump is skipped only when the block is
unreachable and pristine); it then switches to and seals the destination
(also sealing the loop header for a Loop frame), truncates the operand stack
to the frame's original size and pushes the destination's parameters. -/
theorem c1_end_jump_condition (b : FunctionBuilder) (s : TranslationState)
    (environ : FuncEnvironment) (frame : ControlStackFrame)
    (rest : List ControlStackFrame)
    (hr : s.real_unreachable_stack_depth = 0)
    (hcs : s.control_stack = frame :: rest)
    (hlen : frame.num_return_values ≤ s.stack.length) :
    obs (translate_operator .End b s environ) =
      some
        (b.events ++
           (if b.is_unreachable && b.is_pristine then []
            else [Event.jump frame.following_code
                    ((s.stack.take frame.num_return_values).reverse)]) ++
           [Event.switch_to frame.following_code
              ((s.stack.take frame.num_return_values).reverse),
            Event.seal frame.following_code] ++
           (if frame.is_loop then [Event.seal frame.br_destination] else []),
         rest, 0, s.phantom_unreachable_stack_depth,
         (b.ebb_params frame.following_code).reverse ++
           s.stack.drop (s.stack.length - frame.original_stack_size)) := by
  have hin : s.in_unreachable_code = false := by
    simp [TranslationState.in_unreachable_code, hr]
  cases frame with
  | Block d n oss rch =>
    cases hu : b.is_unreachable <;> cases hp : b.is_pristine <;>
      simp_all [translate_operator, TranslationState.peekn,
        FunctionBuilder.emit, FunctionBuilder.switch_to_block,
        FunctionBuilder.seal_block, FunctionBuilder.ebb_params, obs,
        ControlStackFrame.num_return_values, ControlStackFrame.following_code,
        ControlStackFrame.original_stack_size, ControlStackFrame.is_loop,
        ControlStackFrame.br_destination, List.append_assoc]
  | If d bi n oss rch =>
    cases hu : b.is_unreachable <;> cases hp : b.is_pristine <;>
      simp_all [translate_operator, TranslationState.peekn,
        FunctionBuilder.emit, FunctionBuilder.switch_to_block,
        FunctionBuilder.seal_block, FunctionBuilder.ebb_params, obs,
        ControlStackFrame.num_return_values, ControlStackFrame.following_code,
        ControlStackFrame.original_stack_size, ControlStackFrame.is_loop,
        ControlStackFrame.br_destination, List.append_assoc]
  | Loop d hd n oss rch =>
    cases hu : b.is_unreachable <;> cases hp : b.is_pristine <;>
      simp_all [translate_operator, TranslationState.peekn,
        FunctionBuilder.emit, FunctionBuilder.switch_to_block,
        FunctionBuilder.seal_block, FunctionBuilder.ebb_params, obs,
        ControlStackFrame.num_return_values, ControlStackFrame.following_code,
        ControlStackFrame.original_stack_size, ControlStackFrame.is_loop,
        ControlStackFrame.br_destination, List.append_assoc]

/-- C1 amended witness: the amended theorem applied at a concrete reachable
state with one Block frame and a builder whose block is neither unreachable
nor pristine; the jump is emitted. -/
theorem c1_end_jump_condition_witness :
    c1x_state.real_unreachable_stack_depth = 0 ∧
    c1x_state.control_stack = [ControlStackFrame.Block 0 0 0 false] ∧
    (ControlStackFrame.Block 0 0 0 false).num_return_values ≤
      c1x_state.stack.length ∧
    obs (translate_operator .End (builder0 1) c1x_state env0) =
      some ([Event.jump 0 [], Event.switch_to 0 [], Event.seal 0],
        [], 0, 0, []) :=
  ⟨rfl, rfl, by decide,
   c1_end_jump_condition (builder0 1) c1x_state env0
     (ControlStackFrame.Block 0 0 0 false) [] rfl rfl (by decide)⟩

/-- C2: when the unreachable dispatcher processes an End with phantom depth
0, it pops a real control frame, switches to and seals its destination (also
sealing the loop header for a Loop frame), sets the real depth to 1 before
the final decrement when the frame is an If or was marked reachable,
truncates the operand stack to the frame's original size, pushes the
destination's block parameters exactly when the depth after the decrement is
0, and finally decrements the real depth by 1. -/
theorem c2_unreachable_end (b : FunctionBuilder) (s : TranslationState)
    (environ : FuncEnvironment) (frame : ControlStackFrame)
    (rest : List ControlStackFrame)
    (hr : 0 < s.real_unreachable_stack_depth)
    (hph : s.phantom_unreachable_stack_depth = 0)
    (hcs : s.control_stack = frame :: rest) :
    obs (translate_operator .End b s environ) =
      some
        (b.events ++ [Event.switch_to frame.following_code [],
            Event.seal frame.following_code] ++
           (if frame.is_loop then [Event.seal frame.br_destination] else []),
         rest,
         (if frame.is_if || frame.is_reachable then 1
          else s.real_unreachable_stack_depth) - 1,
         0,
         (if (if frame.is_if || frame.is_reachable then 1
              else s.real_unreachable_stack_depth) - 1 = 0 then
            (b.ebb_params frame.following_code).reverse
          else []) ++
           s.stack.drop (s.stack.length - frame.original_stack_size)) := by
  have hin : s.in_unreachable_code = true := by
    simp only [TranslationState.in_unreachable_code, decide_eq_true_eq]
    omega
  have hcond : (s.real_unreachable_stack_depth - 1 = 0) ↔
      (s.real_unreachable_stack_depth = 1) := by omega
  cases frame with
  | Block d n oss rch =>
    cases rch <;>
      simp_all [translate_operator, translate_unreachable_operator, obs,
        FunctionBuilder.switch_to_block, FunctionBuilder.seal_block,
        FunctionBuilder.ebb_params, ControlStackFrame.following_code,
        ControlStackFrame.original_stack_size, ControlStackFrame.is_loop,
        ControlStackFrame.is_if, ControlStackFrame.is_reachable,
        ControlStackFrame.br_destination] <;>
      (split <;> simp)
  | If d bi n oss rch =>
    cases rch <;>
      simp_all [translate_operator, translate_unreachable_operator, obs,
        FunctionBuilder.switch_to_block, FunctionBuilder.seal_block,
        FunctionBuilder.ebb_params, ControlStackFrame.following_code,
        ControlStackFrame.original_stack_size, ControlStackFrame.is_loop,
        ControlStackFrame.is_if, ControlStackFrame.is_reachable,
        ControlStackFrame.br_destination]
  | Loop d hd n oss rch =>
    cases rch <;>
      simp_all [translate_operator, translate_unreachable_operator, obs,
        FunctionBuilder.switch_to_block, FunctionBuilder.seal_block,
        FunctionBuilder.ebb_params, ControlStackFrame.following_code,
        ControlStackFrame.original_stack_size, ControlStackFrame.is_loop,
        ControlStackFrame.is_if, ControlStackFrame.is_reachable,
        ControlStackFrame.br_destination] <;>
      (split <;> simp)

/-- C2 witness: the theorem applied at real depth 2 with an unreachable Block
frame; the End pops the frame, seals and switches, and decrements the depth
to 1 without pushing parameters. -/
theorem c2_unreachable_end_witness :
    0 < ({ state0 with control_stack := [ControlStackFrame.Block 4 0 0 false],
                       real_unreachable_stack_depth := 2 } :
        TranslationState).real_unreachable_stack_depth ∧
    obs (translate_operator .End (builder0 5)
        { state0 with control_stack := [ControlStackFrame.Block 4 0 0 false],
                      real_unreachable_stack_depth := 2 } env0) =
      some ([Event.switch_to 4 [], Event.seal 4], [], 1, 0, []) :=
  ⟨by decide,
   c2_unreachable_end (builder0 5)
     { state0 with control_stack := [ControlStackFrame.Block 4 0 0 false],
                   real_unreachable_stack_depth := 2 } env0
     (ControlStackFrame.Block 4 0 0 false) [] (by decide) rfl rfl⟩

/-- C3: a reachable br k marks the frame at depth k reachable, emits a jump
to its br_destination (loop header for Loop frames, destination otherwise)
carrying the top args_count values (0 for a Loop, num_returns otherwise),
pops those values, and sets the real unreachable depth to 1 + k. -/
theorem c3_br (b : FunctionBuilder) (s : TranslationState)
    (environ : FuncEnvironment) (k : Nat) (frame : ControlStackFrame)
    (hr : s.real_unreachable_stack_depth = 0)
    (hk : s.control_stack[k]? = some frame)
    (hlen : (if frame.is_loop then 0 else frame.num_return_values) ≤
      s.stack.length) :
    obs (translate_operator (.Br k) b s environ) =
      some
        (b.events ++ [Event.jump frame.br_destination
            ((s.stack.take
              (if frame.is_loop then 0 else frame.num_return_values)).reverse)],
         s.control_stack.set k frame.set_reachable,
         1 + k,
         s.phantom_unreachable_stack_depth,
         s.stack.drop (if frame.is_loop then 0 else frame.num_return_values)) := by
  have hin : s.in_unreachable_code = false := by
    simp [TranslationState.in_unreachable_code, hr]
  simp [translate_operator, hin, hk, TranslationState.peekn, hlen,
    TranslationState.popn, FunctionBuilder.emit, obs]

/-- C3 witness: the theorem applied at depth 1 targeting a Loop frame; the
jump goes to the loop header with no arguments and the real depth becomes 2. -/
theorem c3_br_witness :
    ({ state0 with control_stack := [ControlStackFrame.Block 3 0 0 false,
        ControlStackFrame.Loop 8 9 1 0 false] } :
      TranslationState).real_unreachable_stack_depth = 0 ∧
    obs (translate_operator (.Br 1) (builder0 10)
        { state0 with control_stack := [ControlStackFrame.Block 3 0 0 false,
            ControlStackFrame.Loop 8 9 1 0 false] } env0) =
      some ([Event.jump 9 []],
        [ControlStackFrame.Block 3 0 0 false,
         ControlStackFrame.Loop 8 9 1 0 true], 2, 0, []) :=
  ⟨rfl,
   c3_br (builder0 10)
     { state0 with control_stack := [ControlStackFrame.Block 3 0 0 false,
         ControlStackFrame.Loop 8 9 1 0 false] } env0 1
     (ControlStackFrame.Loop 8 9 1 0 false) rfl rfl (by decide)⟩

/-- Accessing the heap cache changes no field of the translation state other
than the heap cache and the instrumentation log. -/
theorem get_heap_preserves (s : TranslationState) (environ : FuncEnvironment)
    (i : Nat) :
    ((s.get_heap environ i).2).stack = s.stack ∧
    ((s.get_heap environ i).2).control_stack = s.control_stack ∧
    ((s.get_heap environ i).2).real_unreachable_stack_depth =
      s.real_unreachable_stack_depth ∧
    ((s.get_heap environ i).2).phantom_unreachable_stack_depth =
      s.phantom_unreachable_stack_depth := by
  unfold TranslationState.get_heap
  cases hfind : assoc_find i s.heaps <;> simp [hfind]

/-- C9 counterexample: a grow_memory operator whose reserved index is 1 is
delegated with the heap handle obtained for memory index 1 (101 under env0),
not the handle for memory index 0 (100), refuting the claim as stated. -/
theorem c9_memory_index_refuted :
    events_of (translate_operator (.GrowMemory 1) (builder0 1) c9x_state env0) =
      some [Event.env_grow_memory 50 1 101 7] ∧
    (c9x_state.get_heap env0 0).1 = 100 ∧ (100 : Nat) ≠ 101 :=
  ⟨rfl, rfl, by decide⟩

/-- C9 amended: every reachable grow_memory and current_memory operator
delegates to the environment with the heap handle obtained for the memory
index given by the operator's reserved field (0 in well-formed MVP input),
popping one value and pushing one result for grow_memory and pushing one
result for current_memory. -/
theorem c9_memory_intrinsics (b : FunctionBuilder) (s : TranslationState)
    (environ : FuncEnvironment) (reserved val : Nat) (rest : List Nat)
    (hr : s.real_unreachable_stack_depth = 0)
    (hstack : s.stack = val :: rest) :
    obs (translate_operator (.GrowMemory reserved) b s environ) =
      some (b.events ++ [Event.env_grow_memory b.next_value reserved
          (s.get_heap environ reserved).1 val],
        s.control_stack, 0, s.phantom_unreachable_stack_depth,
        b.next_value :: rest) ∧
    obs (translate_operator (.CurrentMemory reserved) b s environ) =
      some (b.events ++ [Event.env_current_memory b.next_value reserved
          (s.get_heap environ reserved).1],
        s.control_stack, 0, s.phantom_unreachable_stack_depth,
        b.next_value :: s.stack) := by
  have hin : s.in_unreachable_code = false := by
    simp [TranslationState.in_unreachable_code, hr]
  have hpre := get_heap_preserves s environ reserved
  rcases hgh : s.get_heap environ reserved with ⟨heap, st1⟩
  rw [hgh] at hpre
  simp only [Prod.snd] at hpre
  obtain ⟨hp1, hp2, hp3, hp4⟩ := hpre
  constructor
  · simp [translate_operator, hin, hgh, TranslationState.pop1, hp1, hstack,
      TranslationState.push1, FunctionBuilder.fresh_value,
      FunctionBuilder.emit, obs, hp2, hp3, hp4, hr]
  · simp [translate_operator, hin, hgh, TranslationState.push1,
      FunctionBuilder.fresh_value, FunctionBuilder.emit, obs, hp1, hp2, hp3,
      hp4, hr]

/-- C9 amended witness: the amended theorem applied at reserved index 0: the
delegation carries the heap handle for memory index 0 (100 under env0), one
value is popped and the fresh result pushed. -/
theorem c9_memory_intrinsics_witness :
    c9x_state.real_unreachable_stack_depth = 0 ∧ c9x_state.stack = 7 :: [] ∧
    obs (translate_operator (.GrowMemory 0) (builder0 1) c9x_state env0) =
      some ([Event.env_grow_memory 50 0 100 7],
        [ControlStackFrame.Block 0 0 0 false], 0, 0, [50]) :=
  ⟨rfl, rfl,
   (c9_memory_intrinsics (builder0 1) c9x_state env0 0 7 [] rfl rfl).1⟩

/-- C10: translating a reachable br_if k pops exactly one value (the
condition), marks the target frame reachable, emits a brnz to its
br_destination carrying the top args_count values which remain on the stack,
and leaves both unreachable depths at 0. -/
theorem c10_br_if (b : FunctionBuilder) (s : TranslationState)
    (environ : FuncEnvironment) (k val : Nat) (rest : List Nat)
    (frame : ControlStackFrame)
    (hr : s.real_unreachable_stack_depth = 0)
    (hph : s.phantom_unreachable_stack_depth = 0)
    (hstack : s.stack = val :: rest)
    (hk : s.control_stack[k]? = some frame)
    (hlen : (if frame.is_loop then 0 else frame.num_return_values) ≤
      rest.length) :
    obs (translate_operator (.BrIf k) b s environ) =
      some (b.events ++ [Event.brnz val frame.br_destination
          ((rest.take
            (if frame.is_loop then 0 else frame.num_return_values)).reverse)],
        s.control_stack.set k frame.set_reachable, 0, 0, rest) := by
  have hin : s.in_unreachable_code = false := by
    simp [TranslationState.in_unreachable_code, hr]
  simp [translate_operator, hin, hstack, TranslationState.pop1, hk,
    TranslationState.peekn, hlen, FunctionBuilder.emit, obs, hr, hph]

/-- C10 witness: the theorem applied at depth 0 with condition 9 and one
branch argument 4; only the condition leaves the stack and both depths stay
0. -/
theorem c10_br_if_witness :
    ({ state0 with stack := [9, 4],
                   control_stack := [ControlStackFrame.Block 6 1 0 false] } :
      TranslationState).real_unreachable_stack_depth = 0 ∧
    obs (translate_operator (.BrIf 0) (builder0 7)
        { state0 with stack := [9, 4],
                      control_stack := [ControlStackFrame.Block 6 1 0 false] }
        env0) =
      some ([Event.brnz 9 6 [4]], [ControlStackFrame.Block 6 1 0 true],
        0, 0, [4]) :=
  ⟨rfl,
   c10_br_if (builder0 7)
     { state0 with stack := [9, 4],
                   control_stack := [ControlStackFrame.Block 6 1 0 false] }
     env0 0 9 [4]
     (ControlStackFrame.Block 6 1 0 false) rfl rfl rfl rfl (by decide)⟩

/-- Marking a frame reachable makes is_reachable true. -/
theorem set_reachable_is_reachable (f : ControlStackFrame) :
    f.set_reachable.is_reachable = true := by
  cases f <;> rfl

/-- The trampoline-building fold only creates ebbs: the builder's event log
and jump tables are unchanged. -/
theorem tramp_fold_builder (depths : List Nat) :
    ∀ acc : TrampAcc,
      (depths.foldl tramp_step acc).builder.events = acc.builder.events ∧
      (depths.foldl tramp_step acc).builder.jump_tables =
        acc.builder.jump_tables := by
  induction depths with
  | nil => exact fun acc => ⟨rfl, rfl⟩
  | cons d ds ih =>
    intro acc
    rw [List.foldl_cons]
    have hstep : (tramp_step acc d).builder.events = acc.builder.events ∧
        (tramp_step acc d).builder.jump_tables = acc.builder.jump_tables := by
      unfold tramp_step
      cases assoc_find d acc.map <;> simp [FunctionBuilder.create_ebb]
    exact ⟨(ih (tramp_step acc d)).1.trans hstep.1,
      (ih (tramp_step acc d)).2.trans hstep.2⟩

/-- Every depth recorded by the trampoline fold is inherited from the
accumulator or listed. -/
theorem tramp_fold_keys_sub (depths : List Nat) :
    ∀ (acc : TrampAcc) (p : Nat × Nat),
      p ∈ (depths.foldl tramp_step acc).map → p ∈ acc.map ∨ p.1 ∈ depths := by
  induction depths with
  | nil => exact fun acc p hp => Or.inl hp
  | cons d ds ih =>
    intro acc p hp
    rw [List.foldl_cons] at hp
    rcases ih (tramp_step acc d) p hp with hmem | htail
    · unfold tramp_step at hmem
      rcases hf : assoc_find d acc.map with _ | e
      · rw [hf] at hmem
        simp only at hmem
        rcases List.mem_append.1 hmem with hm | hm
        · exact Or.inl hm
        · simp at hm
          right
          simp [hm]
      · rw [hf] at hmem
        exact Or.inl hmem
    · exact Or.inr (List.mem_cons_of_mem _ htail)

/-- Every listed depth is recorded by the trampoline fold. -/
theorem tramp_fold_keys_mem (depths : List Nat) :
    ∀ (acc : TrampAcc) (d : Nat),
      (d ∈ depths ∨ ∃ p ∈ acc.map, p.1 = d) →
      ∃ p ∈ (depths.foldl tramp_step acc).map, p.1 = d := by
  induction depths with
  | nil =>
    intro acc d hd
    rcases hd with hd | hd
    · exact absurd hd (by simp)
    · exact hd
  | cons d0 ds ih =>
    intro acc d hd
    rw [List.foldl_cons]
    have hgrow : ∀ p ∈ acc.map, p ∈ (tramp_step acc d0).map := by
      intro p hp
      unfold tramp_step
      rcases assoc_find d0 acc.map with _ | e
      · simp only []
        exact List.mem_append_left _ hp
      · exact hp
    rcases hd with hd | hd
    · rcases List.mem_cons.1 hd with hd | hd
      · subst hd
        refine ih _ d (Or.inr ?_)
        rcases hf : assoc_find d acc.map with _ | e
        · refine ⟨(d, acc.builder.next_ebb), ?_, rfl⟩
          unfold tramp_step
          rw [hf]
          simp [FunctionBuilder.create_ebb]
        · exact ⟨(d, e), hgrow _ (assoc_find_mem d hf), rfl⟩
      · exact ih _ d (Or.inl hd)
    · obtain ⟨p, hp, hpd⟩ := hd
      exact ih _ d (Or.inr ⟨p, hgrow p hp, hpd⟩)

/-- The trampoline jump phase succeeds when every recorded depth is in range;
it preserves the control-stack length, leaves unlisted depths untouched,
preserves reachability marks, marks every recorded depth reachable, and only
appends builder events. -/
theorem tramp_jumps_spec (args : List Nat) :
    ∀ (pairs : List (Nat × Nat)) (b : FunctionBuilder)
      (cs : List ControlStackFrame),
      (∀ p ∈ pairs, p.1 < cs.length) →
      ∃ b2 cs2, tramp_jumps pairs args b cs = some (b2, cs2) ∧
        cs2.length = cs.length ∧
        (∀ j : Nat, (∀ p ∈ pairs, p.1 ≠ j) → cs2[j]? = cs[j]?) ∧
        (∀ (j : Nat) (f : ControlStackFrame), cs[j]? = some f →
          f.is_reachable = true →
          ∃ f2, cs2[j]? = some f2 ∧ f2.is_reachable = true) ∧
        (∀ p ∈ pairs, ∃ f2, cs2[p.1]? = some f2 ∧ f2.is_reachable = true) ∧
        (∃ tail, b2.events = b.events ++ tail) := by
  intro pairs
  induction pairs with
  | nil =>
    intro b cs hlt
    exact ⟨b, cs, rfl, rfl, fun j _ => rfl, fun j f hf hr => ⟨f, hf, hr⟩,
      by simp, ⟨[], by simp⟩⟩
  | cons pr rest ih =>
    intro b cs hlt
    obtain ⟨d0, e0⟩ := pr
    have hd0 : d0 < cs.length := hlt (d0, e0) (List.mem_cons_self _ _)
    have hfr : cs[d0]? = some cs[d0] := List.getElem?_eq_getElem hd0
    have hlt1 : ∀ p ∈ rest, p.1 <
        (cs.set d0 (cs[d0]).set_reachable).length := by
      intro p hp
      rw [List.length_set]
      exact hlt p (List.mem_cons_of_mem _ hp)
    obtain ⟨b2, cs2, heq, hlen2, hpres, hmono, hreach, tail2, hev⟩ :=
      ih (((b.switch_to_block e0 []).seal_block e0).emit
          (.jump (cs[d0]).set_reachable.br_destination args))
        (cs.set d0 (cs[d0]).set_reachable) hlt1
    refine ⟨b2, cs2, ?_, ?_, ?_, ?_, ?_, ?_⟩
    · simp only [tramp_jumps, hfr]
      exact heq
    · rw [hlen2, List.length_set]
    · intro j hj
      have hne : d0 ≠ j := hj (d0, e0) (List.mem_cons_self _ _)
      rw [hpres j (fun p hp => hj p (List.mem_cons_of_mem _ hp)),
        List.getElem?_set_ne hne]
    · intro j f hf hr
      by_cases hje : j = d0
      · subst hje
        have : (cs.set j (cs[j]).set_reachable)[j]? =
            some (cs[j]).set_reachable :=
          List.getElem?_set_eq_of_lt _ hd0
        exact hmono j (cs[j]).set_reachable this
          (set_reachable_is_reachable _)
      · have : (cs.set d0 (cs[d0]).set_reachable)[j]? = some f := by
          rw [List.getElem?_set_ne (fun h => hje h.symm)]
          exact hf
        exact hmono j f this hr
    · intro p hp
      rcases List.mem_cons.1 hp with hp | hp
      · subst hp
        have : (cs.set d0 (cs[d0]).set_reachable)[d0]? =
            some (cs[d0]).set_reachable :=
          List.getElem?_set_eq_of_lt _ hd0
        exact hmono d0 (cs[d0]).set_reachable this
          (set_reachable_is_reachable _)
      · exact hreach p hp
    · refine ⟨[Event.switch_to e0 [], Event.seal e0,
        Event.jump (cs[d0]).set_reachable.br_destination args] ++ tail2, ?_⟩
      rw [hev]
      simp [FunctionBuilder.switch_to_block, FunctionBuilder.seal_block,
        FunctionBuilder.emit]

/-- The trampoline jump phase cannot fail when every recorded depth is in
range. -/
theorem tramp_jumps_ne_none (args : List Nat) (pairs : List (Nat × Nat))
    (cs : List ControlStackFrame)
    (hlt : ∀ p ∈ pairs, p.1 < cs.length) (b : FunctionBuilder) :
    tramp_jumps pairs args b cs ≠ none := by
  obtain ⟨b2, cs2, heq, -⟩ := tramp_jumps_spec args pairs b cs hlt
  rw [heq]
  simp

/-- Properties of a successful trampoline jump phase, keyed on the result so
the builder argument is inferred from the run. -/
theorem tramp_jumps_post (args : List Nat) (pairs : List (Nat × Nat))
    (b : FunctionBuilder) (cs : List ControlStackFrame)
    (b2 : FunctionBuilder) (cs2 : List ControlStackFrame)
    (hlt : ∀ p ∈ pairs, p.1 < cs.length)
    (heq : tramp_jumps pairs args b cs = some (b2, cs2)) :
    (∀ j : Nat, (∀ p ∈ pairs, p.1 ≠ j) → cs2[j]? = cs[j]?) ∧
    (∀ p ∈ pairs, ∃ f2, cs2[p.1]? = some f2 ∧ f2.is_reachable = true) ∧
    (∃ tail, b2.events = b.events ++ tail) := by
  obtain ⟨b2', cs2', heq', -, hpres, -, hreach, hev⟩ :=
    tramp_jumps_spec args pairs b cs hlt
  rw [heq] at heq'
  obtain ⟨rfl, rfl⟩ : b2' = b2 ∧ cs2' = cs2 := by
    have := heq'.symm
    simp only [Option.some.injEq, Prod.mk.injEq] at this
    exact ⟨this.1, this.2⟩
  exact ⟨hpres, hreach, hev⟩

/-- C4 counterexample: a br_table over two frames needing one jump argument,
listing only depth 0 with default depth 1.  The trailing default jump targets
the default frame's own destination (ebb 20, which existed before the
translation: 20 < next_ebb = 30), not a newly created trampoline, and the
default frame is left unreachable, refuting the claim. -/
theorem c4_br_table_default_refuted :
    events_of (translate_operator (.BrTable [0] 1) c4x_builder c4x_state env0) =
      some [Event.br_table 5 0, Event.jump 20 [6], Event.switch_to 30 [],
        Event.seal 30, Event.jump 10 [6]] ∧
    frame_at (translate_operator (.BrTable [0] 1) c4x_builder c4x_state env0) 1 =
      some (ControlStackFrame.Block 20 1 0 false) ∧
    (20 : Nat) < c4x_builder.next_ebb :=
  ⟨rfl, rfl, by decide⟩

/-- C4 amended: for a br_table whose minimum-depth frame requires jump
arguments, the trailing unconditional jump for the default depth directly
targets the default frame's br_destination (jump instructions carry
arguments, so no trampoline is created for the default), passing the top
args_count values; the default frame keeps its reachability flag when the
default depth is not among the listed depths, and is marked reachable when
it is listed (via its trampoline). -/
theorem c4_br_table_default (b : FunctionBuilder) (s : TranslationState)
    (environ : FuncEnvironment) (depths : List Nat) (default val : Nat)
    (rest : List Nat) (min_frame dframe : ControlStackFrame)
    (hr : s.real_unreachable_stack_depth = 0)
    (hmin : s.control_stack[br_table_min_depth depths default]? = some min_frame)
    (hac : ¬ (if min_frame.is_loop then 0 else min_frame.num_return_values) = 0)
    (hstack : s.stack = val :: rest)
    (hdef : s.control_stack[default]? = some dframe)
    (hlen : (if min_frame.is_loop then 0 else min_frame.num_return_values) ≤
      rest.length)
    (hall : ∀ d ∈ depths, d < s.control_stack.length) :
    ((events_of (translate_operator (.BrTable depths default) b s environ)).map
        fun l => (l.drop b.events.length).take 2) =
      some [Event.br_table val b.jump_tables.length,
        Event.jump dframe.br_destination
          ((rest.take (if min_frame.is_loop then 0
            else min_frame.num_return_values)).reverse)] ∧
    (default ∉ depths →
      frame_at (translate_operator (.BrTable depths default) b s environ)
          default = some dframe) ∧
    (default ∈ depths →
      (frame_at (translate_operator (.BrTable depths default) b s environ)
          default).map ControlStackFrame.is_reachable = some true) := by
  have hin : s.in_unreachable_code = false := by
    simp [TranslationState.in_unreachable_code, hr]
  have hbuilt := tramp_fold_builder depths ⟨b, [], []⟩
  have hkeys : ∀ p ∈ (build_trampolines depths b).map, p.1 ∈ depths := by
    intro p hp
    rcases tramp_fold_keys_sub depths ⟨b, [], []⟩ p hp with h | h
    · exact absurd h (by simp)
    · exact h
  have hlt : ∀ p ∈ (build_trampolines depths b).map,
      p.1 < s.control_stack.length :=
    fun p hp => hall _ (hkeys p hp)
  have hlt2 : ∀ p ∈ (List.foldl tramp_step ⟨b, [], []⟩ depths).map,
      p.1 < s.control_stack.length := hlt
  have htake2 : ∀ (e1 e2 : Event) (t : List Event),
      (e1 :: e2 :: t).take 2 = [e1, e2] := fun _ _ _ => rfl
  simp only [translate_operator, hin, Bool.false_eq_true, if_false, hmin,
    if_neg hac, TranslationState.pop1, hstack, TranslationState.peekn,
    TranslationState.popn, hdef, hlen, if_true, ite_true,
    FunctionBuilder.create_jump_table, FunctionBuilder.emit,
    build_trampolines, events_of, frame_at, obs]
  split
  · rename_i heqn
    exact absurd heqn (tramp_jumps_ne_none _ _ _ hlt2 _)
  · rename_i b4 cs2 heq
    obtain ⟨hpres, hreach, tail4, hev4⟩ :=
      tramp_jumps_post _ _ _ _ _ _ hlt2 heq
    refine ⟨?_, ?_, ?_⟩
    · simp only [Option.map_some', hev4, hbuilt.1, hbuilt.2,
        List.append_assoc, List.cons_append, List.nil_append,
        Option.some.injEq]
      rw [List.drop_left, htake2]
    · intro hnot
      have hall2 : ∀ p ∈ (List.foldl tramp_step ⟨b, [], []⟩ depths).map,
          p.1 ≠ default :=
        fun p hp hpd => hnot (hpd ▸ hkeys p hp)
      exact (hpres default hall2).trans hdef
    · intro hmem
      obtain ⟨p, hp, hpd⟩ :=
        tramp_fold_keys_mem depths ⟨b, [], []⟩ default (Or.inl hmem)
      obtain ⟨f2, hf2, hf2r⟩ := hreach p hp
      rw [hpd] at hf2
      show (cs2[default]?).map ControlStackFrame.is_reachable = some true
      rw [hf2]
      simp [hf2r]

/-- C4 amended witness: the amended theorem applied to a br_table listing
depths 0 and 1 with default depth 1; the default jump directly targets the
default frame's destination (ebb 20) with the branch argument, and since the
default depth is listed its frame ends up marked reachable. -/
theorem c4_br_table_default_witness :
    ¬ (if (ControlStackFrame.Block 10 1 0 false).is_loop then 0
       else (ControlStackFrame.Block 10 1 0 false).num_return_values) = 0 ∧
    (((events_of (translate_operator (.BrTable [0, 1] 1) c4x_builder c4x_state
          env0)).map
        fun l => (l.drop c4x_builder.events.length).take 2) =
      some [Event.br_table 5 0, Event.jump 20 [6]]) ∧
    ((1 : Nat) ∈ [0, 1] →
      (frame_at (translate_operator (.BrTable [0, 1] 1) c4x_builder c4x_state
          env0) 1).map ControlStackFrame.is_reachable = some true) :=
  have h := c4_br_table_default c4x_builder c4x_state env0 [0, 1] 1 5 [6]
    (ControlStackFrame.Block 10 1 0 false) (ControlStackFrame.Block 20 1 0 false)
    rfl rfl (by decide) rfl rfl (by decide) (by decide)
  ⟨by decide, h.1, h.2.2⟩

/-- In unreachable code, opening a block, loop or if only increments the
phantom depth. -/
theorem translate_open_unreachable (op : Operator) (ty : Option Ty)
    (b : FunctionBuilder) (s : TranslationState) (environ : FuncEnvironment)
    (hop : op = .Block ty ∨ op = .Loop ty ∨ op = .If ty)
    (hr : 0 < s.real_unreachable_stack_depth) :
    translate_operator op b s environ =
      some (b, { s with phantom_unreachable_stack_depth :=
        s.phantom_unreachable_stack_depth + 1 }) := by
  have hin : s.in_unreachable_code = true := by
    simp only [TranslationState.in_unreachable_code, decide_eq_true_eq]
    omega
  rcases hop with rfl | rfl | rfl <;>
    simp [translate_operator, hin, translate_unreachable_operator]

/-- In unreachable code with positive phantom depth, End only decrements the
phantom depth. -/
theorem translate_end_unreachable_phantom (b : FunctionBuilder)
    (s : TranslationState) (environ : FuncEnvironment)
    (hr : 0 < s.real_unreachable_stack_depth)
    (hp : 0 < s.phantom_unreachable_stack_depth) :
    translate_operator .End b s environ =
      some (b, { s with phantom_unreachable_stack_depth :=
        s.phantom_unreachable_stack_depth - 1 }) := by
  have hin : s.in_unreachable_code = true := by
    simp only [TranslationState.in_unreachable_code, decide_eq_true_eq]
    omega
  simp [translate_operator, hin, translate_unreachable_operator, hp]

/-- In unreachable code with phantom depth 0, a successful End leaves the
phantom depth at 0 and strictly decreases the real depth. -/
theorem translate_end_unreachable_real (b b1 : FunctionBuilder)
    (s s1 : TranslationState) (environ : FuncEnvironment)
    (hr : 0 < s.real_unreachable_stack_depth)
    (hp : s.phantom_unreachable_stack_depth = 0)
    (h : translate_operator .End b s environ = some (b1, s1)) :
    s1.phantom_unreachable_stack_depth = 0 ∧
    s1.real_unreachable_stack_depth < s.real_unreachable_stack_depth := by
  have hin : s.in_unreachable_code = true := by
    simp only [TranslationState.in_unreachable_code, decide_eq_true_eq]
    omega
  rcases hcs : s.control_stack with _ | ⟨frame, rest⟩
  · simp [translate_operator, hin, translate_unreachable_operator, hp, hcs] at h
  · simp only [translate_operator, hin, if_true,
      translate_unreachable_operator, hp, Nat.lt_irrefl, if_false, hcs,
      Option.some.injEq, Prod.mk.injEq] at h
    obtain ⟨-, hs1⟩ := h
    subst hs1
    cases frame with
    | Block d n oss rch =>
      cases rch <;>
        simp [ControlStackFrame.is_reachable] <;> omega
    | If d bi n oss rch =>
      cases rch <;>
        simp [ControlStackFrame.is_reachable] <;> omega
    | Loop d hd n oss rch =>
      cases rch <;>
        simp [ControlStackFrame.is_reachable] <;> omega

/-- In reachable code, a successful block / loop / if opening leaves the real
depth at 0 and the phantom depth unchanged. -/
theorem translate_open_reachable (op : Operator) (ty : Option Ty)
    (b b1 : FunctionBuilder) (s s1 : TranslationState)
    (environ : FuncEnvironment)
    (hop : op = .Block ty ∨ op = .Loop ty ∨ op = .If ty)
    (hr : s.real_unreachable_stack_depth = 0)
    (h : translate_operator op b s environ = some (b1, s1)) :
    s1.real_unreachable_stack_depth = 0 ∧
    s1.phantom_unreachable_stack_depth = s.phantom_unreachable_stack_depth := by
  have hin : s.in_unreachable_code = false := by
    simp [TranslationState.in_unreachable_code, hr]
  rcases hop with rfl | rfl | rfl
  · simp only [translate_operator, hin, Bool.false_eq_true, if_false,
      TranslationState.push_block, Option.some.injEq, Prod.mk.injEq] at h
    obtain ⟨-, hs1⟩ := h
    subst hs1
    exact ⟨hr, rfl⟩
  · simp only [translate_operator, hin, Bool.false_eq_true, if_false,
      TranslationState.push_loop, Option.some.injEq, Prod.mk.injEq] at h
    obtain ⟨-, hs1⟩ := h
    subst hs1
    exact ⟨hr, rfl⟩
  · rcases hst : s.stack with _ | ⟨v, t⟩
    · simp [translate_operator, hin, TranslationState.pop1, hst] at h
    · simp only [translate_operator, hin, Bool.false_eq_true, if_false,
        TranslationState.pop1, hst, TranslationState.push_if,
        Option.some.injEq, Prod.mk.injEq] at h
      obtain ⟨-, hs1⟩ := h
      subst hs1
      exact ⟨hr, rfl⟩

/-- In reachable code, a successful End leaves the real depth at 0 and the
phantom depth unchanged. -/
theorem translate_end_reachable (b b1 : FunctionBuilder)
    (s s1 : TranslationState) (environ : FuncEnvironment)
    (hr : s.real_unreachable_stack_depth = 0)
    (h : translate_operator .End b s environ = some (b1, s1)) :
    s1.real_unreachable_stack_depth = 0 ∧
    s1.phantom_unreachable_stack_depth = s.phantom_unreachable_stack_depth := by
  have hin : s.in_unreachable_code = false := by
    simp [TranslationState.in_unreachable_code, hr]
  rcases hcs : s.control_stack with _ | ⟨frame, rest⟩
  · simp [translate_operator, hin, hcs] at h
  · by_cases hlen : frame.num_return_values ≤ s.stack.length
    · simp only [translate_operator, hin, Bool.false_eq_true, if_false, hcs,
        TranslationState.peekn, hlen, if_true, ite_true, Option.some.injEq,
        Prod.mk.injEq] at h
      obtain ⟨-, hs1⟩ := h
      subst hs1
      exact ⟨hr, rfl⟩
    · simp [translate_operator, hin, hcs, TranslationState.peekn, hlen] at h

/-- A successful translation of an entering operator (unreachable, br,
return, br_table) from a reachable state preserves the phantom depth. -/
theorem translate_enter_phantom (op : Operator) (b b1 : FunctionBuilder)
    (s s1 : TranslationState) (environ : FuncEnvironment)
    (hent : IsEnterOp op)
    (hr : s.real_unreachable_stack_depth = 0)
    (h : translate_operator op b s environ = some (b1, s1)) :
    s1.phantom_unreachable_stack_depth = s.phantom_unreachable_stack_depth := by
  have hin : s.in_unreachable_code = false := by
    simp [TranslationState.in_unreachable_code, hr]
  cases op with
  | Unreachable =>
    simp only [translate_operator, hin, Bool.false_eq_true, if_false,
      Option.some.injEq, Prod.mk.injEq] at h
    obtain ⟨-, hs1⟩ := h
    subst hs1
    rfl
  | Br k =>
    rcases hk : s.control_stack[k]? with _ | frame
    · simp [translate_operator, hin, hk] at h
    · by_cases hlen : (if frame.is_loop then 0 else frame.num_return_values) ≤
          s.stack.length
      · simp only [translate_operator, hin, Bool.false_eq_true, if_false, hk,
          TranslationState.peekn, TranslationState.popn, hlen, if_true,
          ite_true, Option.some.injEq, Prod.mk.injEq] at h
        obtain ⟨-, hs1⟩ := h
        subst hs1
        rfl
      · simp [translate_operator, hin, hk, TranslationState.peekn,
          TranslationState.popn, hlen] at h
  | Return =>
    rcases hlast : s.control_stack.getLast? with _ | frame
    · simp [translate_operator, hin, hlast] at h
    · by_cases hlen : frame.num_return_values ≤ s.stack.length
      · simp only [translate_operator, hin, Bool.false_eq_true, if_false,
          hlast, TranslationState.peekn, TranslationState.popn, hlen, if_true,
          ite_true, Option.some.injEq, Prod.mk.injEq] at h
        obtain ⟨-, hs1⟩ := h
        subst hs1
        rfl
      · simp [translate_operator, hin, hlast, TranslationState.peekn,
          TranslationState.popn, hlen] at h
  | BrTable depths default =>
    rcases hmin : s.control_stack[br_table_min_depth depths default]? with
      _ | mf
    · simp [translate_operator, hin, hmin] at h
    · rcases hst : s.stack with _ | ⟨v, t⟩
      · by_cases hac : (if mf.is_loop then 0 else mf.num_return_values) = 0 <;>
          simp [translate_operator, hin, hmin, hac, TranslationState.pop1,
            hst] at h
      · by_cases hac : (if mf.is_loop then 0 else mf.num_return_values) = 0
        · simp only [translate_operator, hin, Bool.false_eq_true, if_false,
            hmin, hac, if_true, ite_true, TranslationState.pop1, hst] at h
          split at h
          · exact absurd h (by simp)
          · split at h
            · exact absurd h (by simp)
            · simp only [Option.some.injEq, Prod.mk.injEq] at h
              obtain ⟨-, hs1⟩ := h
              subst hs1
              rfl
        · by_cases hlen : (if mf.is_loop then 0 else mf.num_return_values) ≤
              t.length
          · rcases hd : s.control_stack[default]? with _ | dframe
            · simp [translate_operator, hin, hmin, hac,
                TranslationState.pop1, hst, hd] at h
            · simp only [translate_operator, hin, Bool.false_eq_true,
                if_false, hmin, hac, TranslationState.pop1, hst, hd,
                TranslationState.peekn, TranslationState.popn, hlen, if_true,
                ite_true] at h
              split at h
              · exact absurd h (by simp)
              · simp only [Option.some.injEq, Prod.mk.injEq] at h
                obtain ⟨-, hs1⟩ := h
                subst hs1
                rfl
          · rcases hd : s.control_stack[default]? with _ | dframe
            · simp [translate_operator, hin, hmin, hac,
                TranslationState.pop1, hst, hd] at h
            · simp [translate_operator, hin, hmin, hac,
                TranslationState.pop1, hst, hd, TranslationState.peekn,
                TranslationState.popn, hlen] at h
  | Block ty => exact absurd hent (by simp [IsEnterOp])
  | Loop ty => exact absurd hent (by simp [IsEnterOp])
  | If ty => exact absurd hent (by simp [IsEnterOp])
  | Else => exact absurd hent (by simp [IsEnterOp])
  | End => exact absurd hent (by simp [IsEnterOp])
  | BrIf k => exact absurd hent (by simp [IsEnterOp])
  | GrowMemory r => exact absurd hent (by simp [IsEnterOp])
  | CurrentMemory r => exact absurd hent (by simp [IsEnterOp])

/-- The reachability invariant implies the debug assertion of
in_unreachable_code. -/
theorem reachinv_phantom_imp_real (s : TranslationState) (d : Nat)
    (h : ReachInv s d) : PhantomImpReal s := by
  intro hp
  rcases Nat.eq_zero_or_pos s.real_unreachable_stack_depth with h0 | h0
  · have := h.1 h0
    omega
  · exact h0

/-- Main induction for C7: running a word that closes d constructs from a
state satisfying the reachability invariant at d ends with both unreachable
depths at 0, and the phantom-implies-real assertion holds at every state
along the run. -/
theorem run_operators_closes (environ : FuncEnvironment) :
    ∀ (d : Nat) (w : List Operator), Closes d w →
      ∀ (b : FunctionBuilder) (s : TranslationState), ReachInv s d →
        (∀ b2 s2, run_operators environ w b s = some (b2, s2) →
          s2.real_unreachable_stack_depth = 0 ∧
          s2.phantom_unreachable_stack_depth = 0) ∧
        StatesOK environ PhantomImpReal w b s := by
  intro d w hw
  induction hw with
  | nil =>
    intro b s hinv
    constructor
    · intro b2 s2 h
      simp only [run_operators, Option.some.injEq, Prod.mk.injEq] at h
      obtain ⟨-, hs2⟩ := h
      subst hs2
      rcases Nat.eq_zero_or_pos s.real_unreachable_stack_depth with h0 | h0
      · exact ⟨h0, hinv.1 h0⟩
      · have := hinv.2 h0
        omega
    · exact reachinv_phantom_imp_real s 0 hinv
  | close d w hw ih =>
    intro b s hinv
    have hstep : ∀ b1 s1,
        translate_operator .End b s environ = some (b1, s1) →
        ReachInv s1 d := by
      intro b1 s1 h
      rcases Nat.eq_zero_or_pos s.real_unreachable_stack_depth with hr | hr
      · obtain ⟨h1, h2⟩ := translate_end_reachable b b1 s s1 environ hr h
        refine ⟨fun _ => ?_, fun hpos => by omega⟩
        rw [h2]
        exact hinv.1 hr
      · by_cases hp : 0 < s.phantom_unreachable_stack_depth
        · rw [translate_end_unreachable_phantom b s environ hr hp] at h
          simp only [Option.some.injEq, Prod.mk.injEq] at h
          obtain ⟨-, hs1⟩ := h
          subst hs1
          have := hinv.2 hr
          refine ⟨fun h0 => by simp at h0 ⊢; omega, fun hpos => ?_⟩
          simp at hpos ⊢
          omega
        · have hp0 : s.phantom_unreachable_stack_depth = 0 := by omega
          obtain ⟨h1, h2⟩ :=
            translate_end_unreachable_real b b1 s s1 environ hr hp0 h
          have := hinv.2 hr
          exact ⟨fun _ => h1, fun hpos => by omega⟩
    constructor
    · intro b2 s2 hrun
      simp only [run_operators] at hrun
      rcases htr : translate_operator .End b s environ with _ | ⟨b1, s1⟩
      · rw [htr] at hrun
        exact absurd hrun (by simp)
      · rw [htr] at hrun
        exact (ih b1 s1 (hstep b1 s1 htr)).1 b2 s2 hrun
    · simp only [StatesOK]
      refine ⟨reachinv_phantom_imp_real s (d + 1) hinv, ?_⟩
      intro b1 s1 htr
      exact (ih b1 s1 (hstep b1 s1 htr)).2
  | openB d w ty hw ih =>
    intro b s hinv
    have hstep : ∀ b1 s1,
        translate_operator (.Block ty) b s environ = some (b1, s1) →
        ReachInv s1 (d + 1) := by
      intro b1 s1 h
      rcases Nat.eq_zero_or_pos s.real_unreachable_stack_depth with hr | hr
      · obtain ⟨h1, h2⟩ := translate_open_reachable _ ty b b1 s s1 environ
          (Or.inl rfl) hr h
        refine ⟨fun _ => ?_, fun hpos => by omega⟩
        rw [h2]
        exact hinv.1 hr
      · rw [translate_open_unreachable _ ty b s environ (Or.inl rfl) hr] at h
        simp only [Option.some.injEq, Prod.mk.injEq] at h
        obtain ⟨-, hs1⟩ := h
        subst hs1
        have h2 := hinv.2 hr
        refine ⟨fun h0 => by simp at h0; omega, fun hpos => ?_⟩
        simp
        omega
    constructor
    · intro b2 s2 hrun
      simp only [run_operators] at hrun
      rcases htr : translate_operator (.Block ty) b s environ with _ | ⟨b1, s1⟩
      · rw [htr] at hrun
        exact absurd hrun (by simp)
      · rw [htr] at hrun
        exact (ih b1 s1 (hstep b1 s1 htr)).1 b2 s2 hrun
    · simp only [StatesOK]
      refine ⟨reachinv_phantom_imp_real s d hinv, ?_⟩
      intro b1 s1 htr
      exact (ih b1 s1 (hstep b1 s1 htr)).2
  | openL d w ty hw ih =>
    intro b s hinv
    have hstep : ∀ b1 s1,
        translate_operator (.Loop ty) b s environ = some (b1, s1) →
        ReachInv s1 (d + 1) := by
      intro b1 s1 h
      rcases Nat.eq_zero_or_pos s.real_unreachable_stack_depth with hr | hr
      · obtain ⟨h1, h2⟩ := translate_open_reachable _ ty b b1 s s1 environ
          (Or.inr (Or.inl rfl)) hr h
        refine ⟨fun _ => ?_, fun hpos => by omega⟩
        rw [h2]
        exact hinv.1 hr
      · rw [translate_open_unreachable _ ty b s environ (Or.inr (Or.inl rfl))
          hr] at h
        simp only [Option.some.injEq, Prod.mk.injEq] at h
        obtain ⟨-, hs1⟩ := h
        subst hs1
        have h2 := hinv.2 hr
        refine ⟨fun h0 => by simp at h0; omega, fun hpos => ?_⟩
        simp
        omega
    constructor
    · intro b2 s2 hrun
      simp only [run_operators] at hrun
      rcases htr : translate_operator (.Loop ty) b s environ with _ | ⟨b1, s1⟩
      · rw [htr] at hrun
        exact absurd hrun (by simp)
      · rw [htr] at hrun
        exact (ih b1 s1 (hstep b1 s1 htr)).1 b2 s2 hrun
    · simp only [StatesOK]
      refine ⟨reachinv_phantom_imp_real s d hinv, ?_⟩
      intro b1 s1 htr
      exact (ih b1 s1 (hstep b1 s1 htr)).2
  | openI d w ty hw ih =>
    intro b s hinv
    have hstep : ∀ b1 s1,
        translate_operator (.If ty) b s environ = some (b1, s1) →
        ReachInv s1 (d + 1) := by
      intro b1 s1 h
      rcases Nat.eq_zero_or_pos s.real_unreachable_stack_depth with hr | hr
      · obtain ⟨h1, h2⟩ := translate_open_reachable _ ty b b1 s s1 environ
          (Or.inr (Or.inr rfl)) hr h
        refine ⟨fun _ => ?_, fun hpos => by omega⟩
        rw [h2]
        exact hinv.1 hr
      · rw [translate_open_unreachable _ ty b s environ (Or.inr (Or.inr rfl))
          hr] at h
        simp only [Option.some.injEq, Prod.mk.injEq] at h
        obtain ⟨-, hs1⟩ := h
        subst hs1
        have h2 := hinv.2 hr
        refine ⟨fun h0 => by simp at h0; omega, fun hpos => ?_⟩
        simp
        omega
    constructor
    · intro b2 s2 hrun
      simp only [run_operators] at hrun
      rcases htr : translate_operator (.If ty) b s environ with _ | ⟨b1, s1⟩
      · rw [htr] at hrun
        exact absurd hrun (by simp)
      · rw [htr] at hrun
        exact (ih b1 s1 (hstep b1 s1 htr)).1 b2 s2 hrun
    · simp only [StatesOK]
      refine ⟨reachinv_phantom_imp_real s d hinv, ?_⟩
      intro b1 s1 htr
      exact (ih b1 s1 (hstep b1 s1 htr)).2

/-- C7: starting from a reachable state, an entering operator (unreachable /
br / return / br_table) followed by a word that closes, with matching ends,
every construct opened at or below the entered depth leaves both the real and
the phantom unreachable depths at 0; moreover a positive phantom depth
implies a positive real depth at the initial and every subsequently reached
state of the word. -/
theorem c7_reachability_idempotence (environ : FuncEnvironment)
    (entry : Operator) (b b1 b2 : FunctionBuilder)
    (s s1 s2 : TranslationState) (w : List Operator)
    (hent : IsEnterOp entry)
    (hr : s.real_unreachable_stack_depth = 0)
    (hp : s.phantom_unreachable_stack_depth = 0)
    (h1 : translate_operator entry b s environ = some (b1, s1))
    (hw : Closes s1.real_unreachable_stack_depth w)
    (h2 : run_operators environ w b1 s1 = some (b2, s2)) :
    (s2.real_unreachable_stack_depth = 0 ∧
     s2.phantom_unreachable_stack_depth = 0) ∧
    StatesOK environ PhantomImpReal w b1 s1 := by
  have hph1 : s1.phantom_unreachable_stack_depth = 0 := by
    rw [translate_enter_phantom entry b b1 s s1 environ hent hr h1, hp]
  have hinv : ReachInv s1 s1.real_unreachable_stack_depth :=
    ⟨fun _ => hph1, fun _ => by omega⟩
  have hmain := run_operators_closes environ _ w hw b1 s1 hinv
  exact ⟨hmain.1 b2 s2 h2, hmain.2⟩

/-- C7 witness: entering unreachable code with the unreachable opcode inside
a single Block and closing it with one End restores both depths to 0. -/
theorem c7_reachability_idempotence_witness :
    IsEnterOp Operator.Unreachable ∧
    ({ state0 with control_stack := [ControlStackFrame.Block 0 0 0 false] } :
      TranslationState).real_unreachable_stack_depth = 0 ∧
    (state0.real_unreachable_stack_depth = 0 ∧
     state0.phantom_unreachable_stack_depth = 0) :=
  ⟨trivial, rfl,
   (c7_reachability_idempotence env0 Operator.Unreachable (builder0 1)
     ((builder0 1).emit (Event.trap 0))
     ((((builder0 1).emit (Event.trap 0)).switch_to_block 0 []).seal_block 0)
     { state0 with control_stack := [ControlStackFrame.Block 0 0 0 false] }
     { state0 with control_stack := [ControlStackFrame.Block 0 0 0 false],
                   real_unreachable_stack_depth := 1 }
     state0 [Operator.End] trivial rfl rfl rfl
     (Closes.close 0 [] Closes.nil) rfl).1⟩
